import Mathlib

/-!
Shallow embedding of the `ioc-n-di` dependency-injection container
(`src/index.ts`) and verification of its specification claims.

Modelling conventions:
* JavaScript `Map` objects (insertion-ordered, unique keys) are modelled as
  association lists (`mapGet?` / `mapSet` / `mapDel`), `Set` objects as
  insertion-ordered duplicate-free lists (`setAdd` / `setDel`).
* Injection tokens (`string | symbol | Constructor`) are the inductive
  `Token`; `Token.objKey` models a plain (non-function, non-string) object
  used as a map key — `getProviderKey` can return the provider object itself.
* Runtime values are `JSValue`; object identity is an allocation counter
  (`State.nextId`), and the constructor arguments of each allocated object are
  recorded in the side table `State.objArgs` so that theorems can inspect the
  injected dependencies of an instance.
* Reflection metadata (`design:paramtypes`, `inject:tokens`, `@Group`
  metadata) and duck-typed lifecycle capabilities of classes are supplied by
  an ambient environment `Env`, mirroring the external reflection
  collaborator of the specification.
* User-supplied code (factories, `onInit` / `onDestroy` hooks) is modelled by
  its observable behaviour only: it either succeeds or throws.
* The asynchronous `resolve` is a state-passing function; since resolution is
  strictly sequential (single-threaded cooperative model, no interleaving),
  this is faithful.  Recursion through the arbitrary dependency graph is
  bounded by explicit fuel; `DIErr.fuelOut` is a model artifact that the
  source cannot produce.
-/

deriving instance DecidableEq for Except

namespace IocDI

/-- An injection token: a string/symbol, a class constructor (identified by a
numeral), or a plain object used as a key (`getProviderKey` returns the
provider object itself when the provider matches no provider shape). -/
inductive Token where
  | str (s : String)
  | ctor (c : Nat)
  | objKey (t : Token)
deriving DecidableEq, Repr

/-- `typeof token === 'function'` -/
def Token.isFunction : Token → Bool
  | .ctor _ => true
  | _ => false

/-- `getTokenName`: class name for constructors, `String(token)` otherwise. -/
def getTokenName : Token → String
  | .str s => s
  | .ctor c => "Class" ++ toString c
  | .objKey _ => "[object Object]"

/-- A JavaScript runtime value, as far as the container observes it. -/
inductive JSValue where
  | undef
  | nullV
  | boolV (b : Bool)
  | numV (n : Int)
  | strV (s : String)
  /-- An object instance: allocation id (reference identity) and the id of
  the class it was constructed from. -/
  | obj (id : Nat) (ctorId : Nat)
  /-- A `LazyRef` handle bound to a token. -/
  | lazyRefV (tok : Token)
deriving DecidableEq, Repr

/-- JavaScript falsiness of a container-observable value. -/
def JSValue.isFalsy : JSValue → Bool
  | .undef => true
  | .nullV => true
  | .boolV b => !b
  | .numV n => n = 0
  | .strV s => s = ""
  | .obj _ _ => false
  | .lazyRefV _ => false

/-- One entry of the `inject:tokens` metadata array: an `@Inject(token)`
override, a `@Lazy(token)` marker (`{ __lazyToken: token }`), or an old-style
`lazy(() => C)` marker (`LazyRefMarker`). -/
inductive InjectDesc where
  | tok (t : Token)
  | lazyNew (t : Token)
  | lazyOld (c : Nat)
deriving DecidableEq, Repr

/-- Observable behaviour of a user-supplied factory function. -/
inductive FactRes where
  | throws
  | retVal (v : JSValue)
  | retFresh (c : Nat)
deriving DecidableEq, Repr

/-- A registered provider.  `classP`/`valueP`/`factoryP` are the
provider-object forms; `ctorP` is a bare class constructor.  Hook fields hold
`some b` when the hook is supplied, `b = true` meaning the hook throws. -/
inductive Provider where
  | ctorP (c : Nat)
  | classP (provide : Token) (useClass : Nat) (deps : Option (List Token))
      (onInit : Option Bool) (onDestroy : Option Bool)
  | valueP (provide : Token) (useValue : JSValue)
  | factoryP (provide : Token) (fact : FactRes) (deps : Option (List Token))
      (onInit : Option Bool) (onDestroy : Option Bool)
deriving DecidableEq, Repr

/-- Metadata attached to an `@Group()`-decorated class. -/
structure GroupMeta where
  providers : List Provider
  deps : List Token
deriving DecidableEq, Repr

/-- The ambient reflection environment: per class id, the
`design:paramtypes` metadata, the `inject:tokens` metadata, the `@Group`
metadata (finitely many groups), and the duck-typed lifecycle capabilities of
its instances (whether a created instance has a callable `onInit`/`onDestroy`
and whether that method throws when called). -/
structure Env where
  paramTypes : Nat → List (Option Nat)
  injectTokens : Nat → List (Option InjectDesc)
  groupMeta : List (Nat × GroupMeta)
  hasOnInit : Nat → Bool
  onInitThrows : Nat → Bool
  hasOnDestroy : Nat → Bool
  onDestroyThrows : Nat → Bool

/-! ### JavaScript `Map` / `Set` as insertion-ordered association lists -/

/-- `Map.prototype.get` -/
def mapGet? {α β : Type} [DecidableEq α] : List (α × β) → α → Option β
  | [], _ => none
  | (k, v) :: rest, a => if k = a then some v else mapGet? rest a

/-- `Map.prototype.has` -/
def mapHas {α β : Type} [DecidableEq α] (m : List (α × β)) (a : α) : Bool :=
  (mapGet? m a).isSome

/-- `Map.prototype.set`: overwrite in place, or append a new entry. -/
def mapSet {α β : Type} [DecidableEq α] : List (α × β) → α → β → List (α × β)
  | [], a, b => [(a, b)]
  | (k, v) :: rest, a, b =>
      if k = a then (k, b) :: rest else (k, v) :: mapSet rest a b

/-- `Map.prototype.delete` (keys are unique, so removing the first match). -/
def mapDel {α β : Type} [DecidableEq α] : List (α × β) → α → List (α × β)
  | [], _ => []
  | (k, v) :: rest, a => if k = a then rest else (k, v) :: mapDel rest a

/-- `Set.prototype.add`: append if absent. -/
def setAdd {α : Type} [DecidableEq α] (l : List α) (a : α) : List α :=
  if a ∈ l then l else l ++ [a]

/-- `Set.prototype.delete`. -/
def setDel {α : Type} [DecidableEq α] : List α → α → List α
  | [], _ => []
  | x :: rest, a => if x = a then setDel rest a else x :: setDel rest a

/-! ### Container state -/

/-- The mutable state of the `Container` singleton.  `nextId` is the
allocation counter for object identity and `objArgs` records the constructor
arguments each allocated object was created with (a model-level heap used
only for observation); neither corresponds to a source field. -/
structure State where
  providers : List (Token × Provider)
  instances : List (Token × JSValue)
  resolutionStack : List Token
  weightCache : List (Token × Nat)
  /-- `providerMetadata`: token ↦ behaviour of the registered provider-level
  `onDestroy` hook (entries are only created when the hook is supplied). -/
  providerMetadata : List (Token × Bool)
  nextId : Nat
  objArgs : List (Nat × List JSValue)
deriving DecidableEq, Repr

def emptyState : State :=
  { providers := [], instances := [], resolutionStack := [], weightCache := []
    providerMetadata := [], nextId := 0, objArgs := [] }

/-- Errors the container can raise (plus the fuel artifact). -/
inductive DIErr where
  | circular (chain : List Token) (offending : Token)
  | noProvider (tok : Token)
  | cannotResolveDep (className : Nat) (index : Nat)
  | notAConstructor
  | instanceNotResolved (tok : Token)
  | userThrown
  | fuelOut
deriving DecidableEq, Repr

/-- `Array.prototype.join(sep)` -/
def joinSep (sep : String) : List String → String
  | [] => ""
  | [x] => x
  | x :: y :: rest => x ++ sep ++ joinSep sep (y :: rest)

/-- The message of the circular-dependency error, exactly as the source
builds it: the stack snapshot joined by `" -> "`, then the offending token. -/
def circularMsg (chain : List Token) (offending : Token) : String :=
  "Circular dependency detected!\nChain: " ++
    joinSep " -> " (chain.map getTokenName) ++ " -> " ++ getTokenName offending

/-! ### Type guards and provider helpers -/

/-- `isClassProvider`: `provider.useClass !== undefined`. -/
def isClassProvider : Provider → Bool
  | .classP _ _ _ _ _ => true
  | _ => false

/-- `isValueProvider`: `provider.useValue !== undefined` — a provider object
whose `useValue` property is `undefined` is NOT a value provider. -/
def isValueProvider : Provider → Bool
  | .valueP _ v => v ≠ JSValue.undef
  | _ => false

/-- `isFactoryProvider`: `provider.useFactory !== undefined`. -/
def isFactoryProvider : Provider → Bool
  | .factoryP _ _ _ _ _ => true
  | _ => false

/-- The provider-level `onDestroy` hook, when supplied. -/
def provOnDestroy : Provider → Option Bool
  | .classP _ _ _ _ od => od
  | .factoryP _ _ _ _ od => od
  | _ => none

/-- The provider-level `onInit` hook, when supplied. -/
def provOnInit : Provider → Option Bool
  | .classP _ _ _ oi _ => oi
  | .factoryP _ _ _ oi _ => oi
  | _ => none

/-- `getProviderKey`: the `provide` token for recognised provider-object
shapes, the provider itself otherwise.  A bare class is its own key; a
provider object recognised by none of the three guards (e.g. `useValue:
undefined`) is used as the key itself, modelled as `Token.objKey` tagged with
its `provide` field (structural stand-in for JS object identity). -/
def getProviderKey : Provider → Token
  | .ctorP c => .ctor c
  | .classP t _ _ _ _ => t
  | .valueP t v => if v = JSValue.undef then .objKey t else t
  | .factoryP t _ _ _ _ => t

/-! ### Dependency analysis -/

/-- Walk of `paramTypes.forEach((paramType, index) => ...)` in
`getClassDependencies`: explicit non-lazy `@Inject` tokens are kept, lazy
markers (both encodings) are skipped, otherwise the declared parameter type
is used. -/
def gcdLoop : List (Option Nat) → List (Option InjectDesc) → List Token
  | [], _ => []
  | pt :: restP, injects =>
    let rest := gcdLoop restP injects.tail
    match injects.headD none with
    | some (.tok t) => t :: rest
    | some (.lazyNew _) => rest
    | some (.lazyOld _) => rest
    | none =>
      match pt with
      | some c => Token.ctor c :: rest
      | none => rest

/-- `getClassDependencies(target)`. -/
def getClassDependencies (env : Env) (c : Nat) : List Token :=
  gcdLoop (env.paramTypes c) (env.injectTokens c)

/-- Accumulator walk of `[...new Set(list)]`: keep the first occurrence of
each element, drop later duplicates. -/
def jsDedupGo {α : Type} [DecidableEq α] (seen : List α) : List α → List α
  | [] => []
  | x :: xs =>
    if x ∈ seen then jsDedupGo seen xs else x :: jsDedupGo (x :: seen) xs

/-- `[...new Set(list)]`: deduplicate keeping first occurrences. -/
def jsDedup {α : Type} [DecidableEq α] (l : List α) : List α :=
  jsDedupGo [] l

/-- Whether a token is an `@Group()`-decorated class (`isGroup`). -/
def groupOfTok (env : Env) : Token → Option (Nat × GroupMeta)
  | .ctor c =>
    match mapGet? env.groupMeta c with
    | some m => some (c, m)
    | none => none
  | _ => none

/-- Whether a provider list entry is a group (a bare `@Group` class). -/
def groupOfProvider (env : Env) : Provider → Option (Nat × GroupMeta)
  | .ctorP c =>
    match mapGet? env.groupMeta c with
    | some m => some (c, m)
    | none => none
  | _ => none

/-- How many group ids of the environment are not yet in `vis` — the
termination measure of the flattening walks. -/
def unvisitedGroups (env : Env) (vis : List Nat) : Nat :=
  ((env.groupMeta.map Prod.fst).filter (fun k => !decide (k ∈ vis))).length

theorem filter_imp_length_le {α : Type} (p q : α → Bool) (l : List α)
    (h : ∀ a ∈ l, p a = true → q a = true) :
    (l.filter p).length ≤ (l.filter q).length := by
  induction l with
  | nil => simp
  | cons x xs ih =>
    have hx := h x (List.mem_cons_self _ _)
    have ih' := ih (fun a ha => h a (List.mem_cons_of_mem _ ha))
    by_cases hp : p x = true
    · rw [List.filter_cons_of_pos hp, List.filter_cons_of_pos (hx hp)]
      simpa using Nat.succ_le_succ ih'
    · rw [List.filter_cons_of_neg (by simpa using hp)]
      by_cases hq : q x = true
      · rw [List.filter_cons_of_pos hq]
        exact Nat.le_succ_of_le ih'
      · rw [List.filter_cons_of_neg (by simpa using hq)]
        exact ih'

/-- Appending a fresh member of `keys` to the visited list strictly shrinks
the count of unvisited keys. -/
theorem filter_notmem_append_lt {α : Type} [DecidableEq α]
    (keys vis : List α) (t : α) (ht : t ∈ keys) (hv : t ∉ vis) :
    (keys.filter (fun k => !decide (k ∈ vis ++ [t]))).length <
      (keys.filter (fun k => !decide (k ∈ vis))).length := by
  induction keys with
  | nil => cases ht
  | cons x xs ih =>
    by_cases hxt : x = t
    · subst hxt
      rw [List.filter_cons_of_neg (by simp), List.filter_cons_of_pos (by simp [hv])]
      refine Nat.lt_succ_of_le (filter_imp_length_le _ _ _ ?_)
      intro a _ ha
      simp only [Bool.not_eq_true', decide_eq_false_iff_not] at ha ⊢
      intro hmem
      exact ha (List.mem_append_left _ hmem)
    · have ht' : t ∈ xs := by
        rcases List.mem_cons.mp ht with h | h
        · exact absurd h.symm hxt
        · exact h
      by_cases hxv : x ∈ vis
      · rw [List.filter_cons_of_neg (by simp [List.mem_append, hxv]),
          List.filter_cons_of_neg (by simp [hxv])]
        exact ih ht'
      · rw [List.filter_cons_of_pos (by simp [List.mem_append, hxv, hxt]),
          List.filter_cons_of_pos (by simp [hxv])]
        exact Nat.succ_lt_succ (ih ht')

theorem mapGet?_some_mem_keys {α β : Type} [DecidableEq α]
    {m : List (α × β)} {a : α} {b : β} (h : mapGet? m a = some b) :
    a ∈ m.map Prod.fst := by
  induction m with
  | nil => simp [mapGet?] at h
  | cons kv rest ih =>
    obtain ⟨k, v⟩ := kv
    by_cases hk : k = a
    · subst hk; simp
    · simp only [mapGet?, if_neg hk] at h
      simpa using Or.inr (ih h)

/-- Membership of a group id in the environment, extracted from a successful
`groupOfProvider`. -/
theorem groupOfProvider_mem {env : Env} {p : Provider} {c : Nat}
    {m : GroupMeta} (hg : groupOfProvider env p = some (c, m)) :
    c ∈ env.groupMeta.map Prod.fst := by
  unfold groupOfProvider at hg
  split at hg
  · split at hg
    · rename_i hm'
      simp only [Option.some.injEq, Prod.mk.injEq] at hg
      obtain ⟨h1, _⟩ := hg
      subst h1
      exact mapGet?_some_mem_keys hm'
    · cases hg
  · cases hg

/-- `flattenProviders`, defunctionalised as a worklist walk: an unvisited
group entry replaces itself by its member providers (which the source
processes, with the shared visited set and result, before the remainder of
the current list — i.e. exactly in worklist order), a visited group is
skipped, and any other entry is emitted. -/
def flattenProvGo (env : Env) :
    List Provider → List Nat → List Provider → List Provider
  | [], _, acc => acc
  | item :: rest, vis, acc =>
    match hg : groupOfProvider env item with
    | some (c, m) =>
      if c ∈ vis then flattenProvGo env rest vis acc
      else flattenProvGo env (m.providers ++ rest) (vis ++ [c]) acc
    | none => flattenProvGo env rest vis (acc ++ [item])
termination_by l vis _ => (unvisitedGroups env vis, l.length)
decreasing_by
  · exact Prod.Lex.right _ (by simp)
  · apply Prod.Lex.left
    unfold unvisitedGroups
    apply filter_notmem_append_lt
    · exact groupOfProvider_mem hg
    · assumption
  · exact Prod.Lex.right _ (by simp)

/-- `flattenProviders(providers)`. -/
def flattenProviders (env : Env) (providers : List Provider) : List Provider :=
  flattenProvGo env providers [] []

/-- Worklist entry for `flattenDeps`: a raw dependency entry still to be
group-checked, or a token to be emitted verbatim (the provider keys of a
group's flattened member providers are pushed directly to the result). -/
inductive DepItem where
  | raw (t : Token)
  | lit (t : Token)
deriving DecidableEq, Repr

/-- `flattenDeps`, defunctionalised as a worklist walk: an unvisited group in
a `deps` array expands to the group's own `deps` (recursively flattened, with
the shared visited set) followed by the provider keys of its flattened member
providers (emitted verbatim); other entries are emitted as-is. -/
def flattenDepsGo (env : Env) :
    List DepItem → List Nat → List Token → List Token
  | [], _, acc => acc
  | .lit t :: rest, vis, acc => flattenDepsGo env rest vis (acc ++ [t])
  | .raw t :: rest, vis, acc =>
    match hg : groupOfTok env t with
    | some (c, m) =>
      if c ∈ vis then flattenDepsGo env rest vis acc
      else
        flattenDepsGo env
          (m.deps.map DepItem.raw ++
            ((flattenProviders env m.providers).map
              (fun p => DepItem.lit (getProviderKey p))) ++ rest)
          (vis ++ [c]) acc
    | none => flattenDepsGo env rest vis (acc ++ [t])
termination_by l vis _ => (unvisitedGroups env vis, l.length)
decreasing_by
  · exact Prod.Lex.right _ (by simp)
  · exact Prod.Lex.right _ (by simp)
  · apply Prod.Lex.left
    unfold unvisitedGroups
    apply filter_notmem_append_lt
    · unfold groupOfTok at hg
      split at hg
      · split at hg
        · rename_i hm'
          simp only [Option.some.injEq, Prod.mk.injEq] at hg
          obtain ⟨h1, _⟩ := hg
          subst h1
          exact mapGet?_some_mem_keys hm'
        · cases hg
      · cases hg
    · assumption
  · exact Prod.Lex.right _ (by simp)

/-- `flattenDeps(deps)`. -/
def flattenDeps (env : Env) (deps : List Token) : List Token :=
  flattenDepsGo env (deps.map DepItem.raw) [] []

/-! ### Weight calculation -/

/-- The dependency list `calculateWeightRecursive` gathers for a provider:
explicit deps flattened through groups for a factory provider; the
deduplicated union of flattened explicit deps and constructor-derived deps
for a class provider; constructor-derived deps for a bare class.  (For a
value-provider object the source reaches this code only with `useValue:
undefined`, in which case `getClassDependencies` of the provider object
yields no metadata, hence `[]`.) -/
def providerWeightDeps (env : Env) : Provider → List Token
  | .factoryP _ _ deps _ _ =>
    match deps with
    | some d => flattenDeps env d
    | none => []
  | .classP _ c deps _ _ =>
    let explicitDeps :=
      match deps with
      | some d => flattenDeps env d
      | none => []
    jsDedup (explicitDeps ++ getClassDependencies env c)
  | .ctorP c => getClassDependencies env c
  | .valueP _ _ => []

/-- Termination measure of the weight recursion: registered tokens not yet
visited. -/
def wMeasure (st : State) (visited : List Token) : Nat :=
  ((st.providers.map Prod.fst).filter (fun k => !decide (k ∈ visited))).length

mutual

/-- `calculateWeightRecursive(token, visited)`: `0` for an already-visited
token, an unregistered token, or a value provider; `0` when the gathered
dependency list is empty; otherwise `1 +` the maximum of the recursive
weights of the dependencies, each child receiving a copy of the visited set
extended with the current token. -/
def calculateWeightRecursive (env : Env) (st : State)
    (visited : List Token) (t : Token) : Nat :=
  if t ∈ visited then 0
  else
    match hp : mapGet? st.providers t with
    | none => 0
    | some p =>
      if isValueProvider p then 0
      else
        match providerWeightDeps env p with
        | [] => 0
        | d :: ds => weightDepsMax env st (visited ++ [t]) (d :: ds) + 1
termination_by (wMeasure st visited, 0, 0)
decreasing_by
  apply Prod.Lex.left
  unfold wMeasure
  apply filter_notmem_append_lt
  · exact mapGet?_some_mem_keys hp
  · assumption

/-- The `Math.max` accumulation over the dependency weights (the source's
`maxDepWeight` loop). -/
def weightDepsMax (env : Env) (st : State) (visited : List Token) :
    List Token → Nat
  | [] => 0
  | d :: ds =>
    Nat.max (calculateWeightRecursive env st visited d)
      (weightDepsMax env st visited ds)
termination_by l => (wMeasure st visited, 1, l.length)
decreasing_by
  · exact Prod.Lex.right _ (Prod.Lex.left _ _ (by omega))
  · exact Prod.Lex.right _ (Prod.Lex.right _ (by simp))

end

/-- `calculateWeight(token)`: memoized; `0` for unregistered tokens and value
providers; otherwise the recursive weight starting from an empty visited
set.  Returns the weight together with the updated state (cache write). -/
def calculateWeight (env : Env) (st : State) (t : Token) : Nat × State :=
  match mapGet? st.weightCache t with
  | some w => (w, st)
  | none =>
    match mapGet? st.providers t with
    | none => (0, { st with weightCache := mapSet st.weightCache t 0 })
    | some p =>
      if isValueProvider p then
        (0, { st with weightCache := mapSet st.weightCache t 0 })
      else
        let w := calculateWeightRecursive env st [] t
        (w, { st with weightCache := mapSet st.weightCache t w })

/-! ### Registration and synchronous accessors -/

/-- `register(provider)`: class and factory providers record their
`onDestroy` hook in `providerMetadata`; value providers are cached
immediately; finally the provider is stored under its key. -/
def register (st : State) (p : Provider) : State :=
  let key := getProviderKey p
  let st1 :=
    if isClassProvider p then
      match provOnDestroy p with
      | some b => { st with providerMetadata := mapSet st.providerMetadata key b }
      | none => st
    else if isValueProvider p then
      match p with
      | .valueP _ v => { st with instances := mapSet st.instances key v }
      | _ => st
    else if isFactoryProvider p then
      match provOnDestroy p with
      | some b => { st with providerMetadata := mapSet st.providerMetadata key b }
      | none => st
    else st
  { st1 with providers := mapSet st1.providers key p }

/-- `getInstance(token)` — `instances.get(token)`, which in JS yields
`undefined` both for an absent entry and for a stored `undefined`. -/
def getInstanceJS (st : State) (t : Token) : JSValue :=
  (mapGet? st.instances t).getD JSValue.undef

/-- `getInstance(token)` with the absent case kept distinguishable. -/
def getInstance (st : State) (t : Token) : Option JSValue :=
  mapGet? st.instances t

/-- `getInstanceOrThrow(token)`. -/
def getInstanceOrThrow (st : State) (t : Token) : Except DIErr JSValue :=
  if mapHas st.instances t then .ok (getInstanceJS st t)
  else .error (.instanceNotResolved t)

/-! ### LazyRef methods (all read-only lookups against the container) -/

/-- `LazyRef.get()` / the `value` accessor. -/
def lazyGet (st : State) (t : Token) : Except DIErr JSValue :=
  getInstanceOrThrow st t

/-- `LazyRef.tryGetValue()` — `container.getInstance(token)`. -/
def lazyTryGetValue (st : State) (t : Token) : JSValue :=
  getInstanceJS st t

/-- `LazyRef.isResolved()` — `container.getInstance(token) !== undefined`. -/
def lazyIsResolved (st : State) (t : Token) : Bool :=
  getInstanceJS st t ≠ JSValue.undef

/-- `LazyRef.reset()` — deletes the bound token's cache entry. -/
def lazyReset (st : State) (t : Token) : State :=
  { st with instances := mapDel st.instances t }

/-- `clear()`. -/
def clearAll (st : State) : State :=
  { st with providers := [], instances := [], resolutionStack := []
            weightCache := [], providerMetadata := [] }

/-! ### The resolution engine

`resolve` and its helpers form one recursion through the dependency graph;
the helpers are parametrised by the recursive resolver `r` (which `resolve`
instantiates with one unit of fuel consumed), mirroring the mutual recursion
of `resolve` / `instantiateClass` / `instantiateFactory`. -/

/-- The type of the recursive resolver passed to the helpers: internal
dependency resolutions always use `skipCircularCheck = false`. -/
abbrev RFun := State → Token → Except DIErr JSValue × State

/-- Duck-typed `hasOnInit(instance)` check. -/
def hasOnInitV (env : Env) : JSValue → Bool
  | .obj _ c => env.hasOnInit c
  | _ => false

/-- Whether the instance's own `onInit()` throws when called. -/
def onInitThrowsV (env : Env) : JSValue → Bool
  | .obj _ c => env.onInitThrows c
  | _ => false

/-- Duck-typed `hasOnDestroy(instance)` check. -/
def hasOnDestroyV (env : Env) : JSValue → Bool
  | .obj _ c => env.hasOnDestroy c
  | _ => false

/-- Whether the instance's own `onDestroy()` throws when called. -/
def onDestroyThrowsV (env : Env) : JSValue → Bool
  | .obj _ c => env.onDestroyThrows c
  | _ => false

/-- The `onInit` sequence of the class/factory provider branches of
`resolve`: the provider-level hook (if supplied) runs first; if it throws the
error propagates; then the instance's own `onInit` (duck-typed) runs. -/
def runOnInitHooks (env : Env) (providerHook : Option Bool) (v : JSValue) :
    Except DIErr Unit :=
  match providerHook with
  | some true => .error .userThrown
  | _ =>
    if hasOnInitV env v then
      if onInitThrowsV env v then .error .userThrown else .ok ()
    else .ok ()

/-- One constructor-parameter position of `instantiateClass`'s dependency
loop: a lazy marker (either encoding) yields a `LazyRef` without resolving;
an explicit `@Inject` token is resolved; otherwise the declared parameter
type is resolved; with neither, the Missing-Dependency-Token error is
thrown. -/
def classDepStep (r : RFun) (cname : Nat) (st : State)
    (pt : Option Nat) (inj : Option InjectDesc) (idx : Nat) :
    Except DIErr JSValue × State :=
  match inj with
  | some (.lazyNew t) => (.ok (.lazyRefV t), st)
  | some (.lazyOld c) => (.ok (.lazyRefV (.ctor c)), st)
  | some (.tok t) => r st t
  | none =>
    match pt with
    | some c => r st (.ctor c)
    | none => (.error (.cannotResolveDep cname idx), st)

/-- The dependency loop of `instantiateClass`, walking the constructor
parameter positions in order; resolution is strictly sequential. -/
def classDepLoop (env : Env) (r : RFun) (cname : Nat) :
    State → List (Option Nat) → List (Option InjectDesc) → Nat →
    Except DIErr (List JSValue) × State
  | st, [], _, _ => (.ok [], st)
  | st, pt :: restP, injects, idx =>
    match classDepStep r cname st pt (injects.headD none) idx with
    | (.error e, st') => (.error e, st')
    | (.ok arg, st') =>
      match classDepLoop env r cname st' restP injects.tail (idx + 1) with
      | (.error e, st'') => (.error e, st'')
      | (.ok args, st'') => (.ok (arg :: args), st'')

/-- `instantiateClass(target)`: resolve the dependencies sequentially, then
construct the instance (`new target(...dependencies)` allocates a fresh
object; the arguments are recorded in the model heap). -/
def instantiateClass (env : Env) (r : RFun) (st : State) (c : Nat) :
    Except DIErr JSValue × State :=
  match classDepLoop env r c st (env.paramTypes c) (env.injectTokens c) 0 with
  | (.error e, st') => (.error e, st')
  | (.ok args, st') =>
    (.ok (.obj st'.nextId c),
      { st' with nextId := st'.nextId + 1
                 objArgs := mapSet st'.objArgs st'.nextId args })

/-- The sequential dependency loop of `instantiateFactory` (raw `deps`, not
flattened through groups). -/
def factoryDepLoop (r : RFun) : State → List Token →
    Except DIErr (List JSValue) × State
  | st, [] => (.ok [], st)
  | st, d :: rest =>
    match r st d with
    | (.error e, st') => (.error e, st')
    | (.ok v, st') =>
      match factoryDepLoop r st' rest with
      | (.error e, st'') => (.error e, st'')
      | (.ok vs, st'') => (.ok (v :: vs), st'')

/-- `instantiateFactory(provider)`: resolve `provider.deps || []`
sequentially, then call the factory. -/
def instantiateFactory (env : Env) (r : RFun) (st : State)
    (fact : FactRes) (deps : Option (List Token)) :
    Except DIErr JSValue × State :=
  match factoryDepLoop r st (deps.getD []) with
  | (.error e, st') => (.error e, st')
  | (.ok _, st') =>
    match fact with
    | .throws => (.error .userThrown, st')
    | .retVal v => (.ok v, st')
    | .retFresh c =>
      (.ok (.obj st'.nextId c),
        { st' with nextId := st'.nextId + 1
                   objArgs := mapSet st'.objArgs st'.nextId [] })

/-- The body of `resolve`'s `try` block: provider lookup and the
provider-type switch.  The caller has already performed the cache check, the
circular check and the stack push.  Note the no-provider constructor branch
returns the instantiation result directly — without the cache write and
without the `onInit` hooks. -/
def resolveBody (env : Env) (r : RFun) (st : State) (tok : Token) :
    Except DIErr JSValue × State :=
  match mapGet? st.providers tok with
  | none =>
    match tok with
    | .ctor c => instantiateClass env r st c
    | _ => (.error (.noProvider tok), st)
  | some p =>
    if isClassProvider p then
      match p with
      | .classP _ c _ oi _ =>
        match instantiateClass env r st c with
        | (.error e, st') => (.error e, st')
        | (.ok v, st') =>
          match runOnInitHooks env oi v with
          | .error e => (.error e, st')
          | .ok _ => (.ok v, { st' with instances := mapSet st'.instances tok v })
      | _ => (.error .notAConstructor, st)
    else if isValueProvider p then
      match p with
      | .valueP _ v => (.ok v, { st with instances := mapSet st.instances tok v })
      | _ => (.error .notAConstructor, st)
    else if isFactoryProvider p then
      match p with
      | .factoryP _ f deps oi _ =>
        match instantiateFactory env r st f deps with
        | (.error e, st') => (.error e, st')
        | (.ok v, st') =>
          match runOnInitHooks env oi v with
          | .error e => (.error e, st')
          | .ok _ => (.ok v, { st' with instances := mapSet st'.instances tok v })
      | _ => (.error .notAConstructor, st)
    else
      match p with
      | .ctorP c =>
        match instantiateClass env r st c with
        | (.error e, st') => (.error e, st')
        | (.ok v, st') =>
          if hasOnInitV env v ∧ onInitThrowsV env v then (.error .userThrown, st')
          else (.ok v, { st' with instances := mapSet st'.instances tok v })
      | _ => (.error .notAConstructor, st)

/-- `resolve(token, skipCircularCheck)`: cached-instance short-circuit,
circular-dependency check (the snapshot of the stack is taken before the
push), stack push, provider dispatch, and the `finally` stack pop.  `fuel`
bounds the recursion depth (a model artifact; exhaustion yields
`DIErr.fuelOut`). -/
def resolve (env : Env) : Nat → State → Token → Bool →
    Except DIErr JSValue × State
  | 0, st, _, _ => (.error .fuelOut, st)
  | fuel + 1, st, tok, skip =>
    if mapHas st.instances tok then (.ok (getInstanceJS st tok), st)
    else if !skip ∧ tok ∈ st.resolutionStack then
      (.error (.circular st.resolutionStack tok), st)
    else
      let st1 :=
        if skip then st
        else { st with resolutionStack := setAdd st.resolutionStack tok }
      match resolveBody env (fun s t => resolve env fuel s t false) st1 tok with
      | (res, st2) =>
        (res,
          if skip then st2
          else { st2 with resolutionStack := setDel st2.resolutionStack tok })

/-! ### Destroy -/

/-- Teardown events observable during `destroy()`: a provider-level
`onDestroy` call, an instance-level `onDestroy` call, and a caught error. -/
inductive Ev where
  | provHook (t : Token)
  | instHook (t : Token)
  | errCaught (t : Token)
deriving DecidableEq, Repr

/-- The token an event belongs to. -/
def Ev.token : Ev → Token
  | .provHook t => t
  | .instHook t => t
  | .errCaught t => t

/-- The instance-level part of one destroy iteration: call the duck-typed
`onDestroy` method if the instance exposes one. -/
def instDestroyEvents (env : Env) (v : JSValue) (t : Token) : List Ev :=
  if hasOnDestroyV env v then
    if onDestroyThrowsV env v then [.instHook t, .errCaught t]
    else [.instHook t]
  else []

/-- One iteration of the destroy loop: a falsy cached value is skipped
entirely (`if (!instance) continue`); otherwise the provider-level
`onDestroy` hook (if registered) runs first — if it throws, the error is
caught and the instance-level hook is skipped — then the instance's own
`onDestroy` (if it exposes one), whose error is likewise caught. -/
def perTokenDestroy (env : Env) (st : State) (t : Token) : List Ev :=
  match mapGet? st.instances t with
  | none => []
  | some v =>
    if v.isFalsy then []
    else
      match mapGet? st.providerMetadata t with
      | some hookThrows =>
        if hookThrows then [.provHook t, .errCaught t]
        else .provHook t :: instDestroyEvents env v t
      | none => instDestroyEvents env v t

/-- The destroy loop over a token list (already reversed by the caller). -/
def destroyLoop (env : Env) (st : State) : List Token → List Ev
  | [] => []
  | t :: rest => perTokenDestroy env st t ++ destroyLoop env st rest

/-- `destroy()`: iterate the cached instances in reverse insertion order
invoking the teardown hooks (errors caught per instance), then `clear()`
everything.  Returns the observable event trace and the final state. -/
def destroy (env : Env) (st : State) : List Ev × State :=
  (destroyLoop env st (st.instances.map Prod.fst).reverse, clearAll st)

/-! ### The structural dependency relation (for the weight claims) -/

/-- The non-lazy dependency list the weight calculator attributes to a token
in a given registry state: empty for unregistered tokens and value providers,
`providerWeightDeps` otherwise. -/
def depsOf (env : Env) (st : State) (t : Token) : List Token :=
  match mapGet? st.providers t with
  | none => []
  | some p => if isValueProvider p then [] else providerWeightDeps env p

/-- Direct structural dependency: `b` is among `a`'s non-lazy weight
dependencies. -/
def Dir (env : Env) (st : State) (a b : Token) : Prop := b ∈ depsOf env st a

/-! ### Concrete scenarios used by the claim theorems -/

/-- An environment with no reflection metadata, no groups and no lifecycle
capabilities. -/
def envTriv : Env :=
  { paramTypes := fun _ => [], injectTokens := fun _ => [], groupMeta := []
    hasOnInit := fun _ => false, onInitThrows := fun _ => false
    hasOnDestroy := fun _ => false, onDestroyThrows := fun _ => false }

/-- A state with two tokens mid-resolution (for the circular-error claim). -/
def stMid : State :=
  { emptyState with resolutionStack := [.str "A", .str "B"] }

/-- Class provider whose explicit dependency list names its own token. -/
def stSelf : State :=
  register emptyState (.classP (.str "A") 0 (some [.str "A"]) none none)

/-- Mutually-dependent class providers `A ↔ B` (explicit deps). -/
def stCycle : State :=
  register
    (register emptyState (.classP (.str "A") 0 (some [.str "B"]) none none))
    (.classP (.str "B") 1 (some [.str "A"]) none none)

/-- `stCycle` after `calculateWeight('A')` has populated the weight cache. -/
def stCycleW : State :=
  { stCycle with weightCache := [(.str "A", 2)] }

/-- `stCycleW` after re-registering `'A'` as a value provider — the weight
cache is stale. -/
def stStale : State :=
  register stCycleW (.valueP (.str "A") (.numV 42))

/-- An acyclic chain: class provider `A` depends on value provider `B`. -/
def stChain : State :=
  register
    (register emptyState (.classP (.str "A") 0 (some [.str "B"]) none none))
    (.valueP (.str "B") (.numV 1))

/-- `stChain` plus a value provider `V` (weight cache untouched). -/
def stChainV : State :=
  register stChain (.valueP (.str "V") (.numV 5))

/-- Classes `0` and `1`, each declaring its single constructor dependency on
the other lazily via `@Lazy`. -/
def envLazy : Env :=
  { envTriv with
    paramTypes := fun c =>
      if c = 0 then [some 1] else if c = 1 then [some 0] else []
    injectTokens := fun c =>
      if c = 0 then [some (.lazyNew (.ctor 1))]
      else if c = 1 then [some (.lazyNew (.ctor 0))] else [] }

/-- Class providers for the two mutually-lazy classes. -/
def stLazy : State :=
  register (register emptyState (.classP (.ctor 0) 0 none none none))
    (.classP (.ctor 1) 1 none none none)

/-- `stLazy` after `resolve(A)`. -/
def stLazyA : State := (resolve envLazy 10 stLazy (.ctor 0) false).2

/-- `stLazyA` after `resolve(B)`. -/
def stLazyB : State := (resolve envLazy 10 stLazyA (.ctor 1) false).2

/-- A registered bare class `0`, a throwing factory `E`, and a factory `F`
depending on both (the class resolves first, then `E` fails). -/
def stFail : State :=
  register
    (register (register emptyState (.ctorP 0))
      (.factoryP (.str "E") .throws none none none))
    (.factoryP (.str "F") (.retVal (.numV 7)) (some [.ctor 0, .str "E"])
      none none)

/-- `stFail` after the failing `resolve('F')`. -/
def stFail' : State := (resolve envTriv 10 stFail (.str "F") false).2

/-- A cached value provider `X ↦ 1`. -/
def stOv1 : State := register emptyState (.valueP (.str "X") (.numV 1))

/-- `stOv1` after resolving an unrelated class token. -/
def stOv2 : State := (resolve envTriv 5 stOv1 (.ctor 0) false).2

/-- Instances of classes `0` and `1` both exposing `onDestroy`; class `0`'s
hook throws. -/
def envDes : Env :=
  { envTriv with
    hasOnDestroy := fun c => c = 0 || c = 1
    onDestroyThrows := fun c => c = 0 }

/-- Cached instances in insertion order `A`, `Z`, `B`: objects of classes `0`
and `1` and a falsy `0` for `Z`, with provider-level hooks registered for `B`
and `Z`. -/
def stDes : State :=
  { emptyState with
    instances := [(.str "A", .obj 0 0), (.str "Z", .numV 0), (.str "B", .obj 1 1)]
    providerMetadata := [(.str "B", false), (.str "Z", false)] }

/-- A provider object with `useValue: undefined` registered on the empty
container. -/
def stUndef : State := register emptyState (.valueP (.str "X") .undef)

/-! ## Generic lemmas about the map/set embedding -/

theorem mapGet?_mapSet_self {α β : Type} [DecidableEq α]
    (m : List (α × β)) (a : α) (b : β) :
    mapGet? (mapSet m a b) a = some b := by
  induction m with
  | nil => simp [mapSet, mapGet?]
  | cons kv rest ih =>
    obtain ⟨k, v⟩ := kv
    by_cases hk : k = a
    · subst hk; simp [mapSet, mapGet?]
    · simp [mapSet, mapGet?, hk, ih]

theorem mapGet?_mapSet_ne {α β : Type} [DecidableEq α]
    (m : List (α × β)) (a k : α) (b : β) (h : k ≠ a) :
    mapGet? (mapSet m a b) k = mapGet? m k := by
  have h' : a ≠ k := Ne.symm h
  induction m with
  | nil => simp [mapSet, mapGet?, h']
  | cons kv rest ih =>
    obtain ⟨k', v⟩ := kv
    by_cases hk : k' = a
    · subst hk
      simp [mapSet, mapGet?, h']
    · simp [mapSet, mapGet?, hk, ih]

theorem setAdd_of_not_mem {α : Type} [DecidableEq α] {l : List α} {a : α}
    (h : a ∉ l) : setAdd l a = l ++ [a] := by
  simp [setAdd, h]

theorem setDel_append_self {α : Type} [DecidableEq α] {l : List α} {a : α}
    (h : a ∉ l) : setDel (l ++ [a]) a = l := by
  induction l with
  | nil => simp [setDel]
  | cons x xs ih =>
    have hxa : x ≠ a := fun hh => h (hh ▸ List.mem_cons_self _ _)
    have hxs : a ∉ xs := fun hh => h (List.mem_cons_of_mem _ hh)
    simp [setDel, hxa, ih hxs]

/-! ## Invariants of the resolution engine

`Keeps st st'` packages the three facts every internal resolution step
maintains: the resolution stack is restored, cached instances are never
removed or overwritten, and a token that is on the stack and uncached stays
uncached (this is what makes the final cache write of `resolve` a fresh
insertion and is why a failed resolution leaves its token uncached). -/

def instKeeps (st st' : State) : Prop :=
  ∀ k v, mapGet? st.instances k = some v → mapGet? st'.instances k = some v

def stackNoneKeeps (st st' : State) : Prop :=
  ∀ k, k ∈ st.resolutionStack → mapGet? st.instances k = none →
    mapGet? st'.instances k = none

def Keeps (st st' : State) : Prop :=
  st'.resolutionStack = st.resolutionStack ∧ instKeeps st st' ∧
    stackNoneKeeps st st'

theorem Keeps.refl (st : State) : Keeps st st :=
  ⟨rfl, fun _ _ h => h, fun _ _ h => h⟩

theorem Keeps.trans {st1 st2 st3 : State} (h1 : Keeps st1 st2)
    (h2 : Keeps st2 st3) : Keeps st1 st3 := by
  obtain ⟨hs1, hi1, hn1⟩ := h1
  obtain ⟨hs2, hi2, hn2⟩ := h2
  refine ⟨hs2.trans hs1, fun k v h => hi2 k v (hi1 k v h), fun k hk hn => ?_⟩
  exact hn2 k (hs1 ▸ hk) (hn1 k hk hn)

/-- A recursive resolver every call of which maintains `Keeps`. -/
def GoodR (r : RFun) : Prop :=
  ∀ st t res st', r st t = (res, st') → Keeps st st'

theorem classDepStep_keeps (r : RFun) (hr : GoodR r) (cname : Nat)
    (st : State) (pt : Option Nat) (inj : Option InjectDesc) (idx : Nat)
    (res : Except DIErr JSValue) (st' : State)
    (h : classDepStep r cname st pt inj idx = (res, st')) : Keeps st st' := by
  rcases inj with _ | d
  · rcases pt with _ | c
    · simp only [classDepStep] at h
      obtain ⟨-, h2⟩ := Prod.mk.injEq .. ▸ h
      exact h2 ▸ Keeps.refl st
    · exact hr st (.ctor c) res st' h
  · rcases d with t | t | c
    · exact hr st t res st' h
    all_goals
      simp only [classDepStep] at h
      obtain ⟨-, h2⟩ := Prod.mk.injEq .. ▸ h
      exact h2 ▸ Keeps.refl st

theorem classDepLoop_keeps (env : Env) (r : RFun) (hr : GoodR r)
    (cname : Nat) :
    ∀ (params : List (Option Nat)) (st : State)
      (injects : List (Option InjectDesc)) (idx : Nat)
      (res : Except DIErr (List JSValue)) (st' : State),
      classDepLoop env r cname st params injects idx = (res, st') →
      Keeps st st' := by
  intro params
  induction params with
  | nil =>
    intro st injects idx res st' h
    simp only [classDepLoop] at h
    obtain ⟨-, h2⟩ := Prod.mk.injEq .. ▸ h
    exact h2 ▸ Keeps.refl st
  | cons pt restP ih =>
    intro st injects idx res st' h
    simp only [classDepLoop] at h
    rcases hs : classDepStep r cname st pt (injects.headD none) idx
      with ⟨res1, st1⟩
    rw [hs] at h
    have hKstep : Keeps st st1 := classDepStep_keeps r hr cname st _ _ _ _ _ hs
    rcases res1 with e | arg
    · simp only at h
      obtain ⟨-, h2⟩ := Prod.mk.injEq .. ▸ h
      exact h2 ▸ hKstep
    · simp only at h
      rcases hrec : classDepLoop env r cname st1 restP injects.tail (idx + 1)
        with ⟨res2, st2⟩
      rw [hrec] at h
      have hK2 := ih st1 injects.tail (idx + 1) res2 st2 hrec
      rcases res2 with e | args
      all_goals
        simp only at h
        obtain ⟨-, h2⟩ := Prod.mk.injEq .. ▸ h
        exact h2 ▸ hKstep.trans hK2

/-- Changing only `nextId`/`objArgs` does not disturb `Keeps`. -/
theorem Keeps.heapOnly {st st' : State} (h : Keeps st st')
    (n : Nat) (oa : List (Nat × List JSValue)) :
    Keeps st { st' with nextId := n, objArgs := oa } := by
  obtain ⟨hs, hi, hn⟩ := h
  exact ⟨hs, hi, hn⟩

theorem instantiateClass_keeps (env : Env) (r : RFun) (hr : GoodR r)
    (st : State) (c : Nat) (res : Except DIErr JSValue) (st' : State)
    (h : instantiateClass env r st c = (res, st')) : Keeps st st' := by
  unfold instantiateClass at h
  rcases hl : classDepLoop env r c st (env.paramTypes c) (env.injectTokens c) 0
    with ⟨res1, st1⟩
  rw [hl] at h
  have hK := classDepLoop_keeps env r hr c _ st _ _ _ _ hl
  rcases res1 with e | args
  all_goals
    simp only at h
    obtain ⟨-, h2⟩ := Prod.mk.injEq .. ▸ h
  · exact h2 ▸ hK
  · exact h2 ▸ hK.heapOnly _ _

theorem factoryDepLoop_keeps (r : RFun) (hr : GoodR r) :
    ∀ (deps : List Token) (st : State)
      (res : Except DIErr (List JSValue)) (st' : State),
      factoryDepLoop r st deps = (res, st') → Keeps st st' := by
  intro deps
  induction deps with
  | nil =>
    intro st res st' h
    simp only [factoryDepLoop] at h
    obtain ⟨-, h2⟩ := Prod.mk.injEq .. ▸ h
    exact h2 ▸ Keeps.refl st
  | cons d rest ih =>
    intro st res st' h
    simp only [factoryDepLoop] at h
    rcases hs : r st d with ⟨res1, st1⟩
    rw [hs] at h
    have hK1 : Keeps st st1 := hr st d _ _ hs
    rcases res1 with e | v
    · simp only at h
      obtain ⟨-, h2⟩ := Prod.mk.injEq .. ▸ h
      exact h2 ▸ hK1
    · simp only at h
      rcases hrec : factoryDepLoop r st1 rest with ⟨res2, st2⟩
      rw [hrec] at h
      have hK2 := ih st1 res2 st2 hrec
      rcases res2 with e | vs
      all_goals
        simp only at h
        obtain ⟨-, h2⟩ := Prod.mk.injEq .. ▸ h
        exact h2 ▸ hK1.trans hK2

theorem instantiateFactory_keeps (env : Env) (r : RFun) (hr : GoodR r)
    (st : State) (fact : FactRes) (deps : Option (List Token))
    (res : Except DIErr JSValue) (st' : State)
    (h : instantiateFactory env r st fact deps = (res, st')) : Keeps st st' := by
  unfold instantiateFactory at h
  rcases hl : factoryDepLoop r st (deps.getD []) with ⟨res1, st1⟩
  rw [hl] at h
  have hK := factoryDepLoop_keeps r hr _ st _ _ hl
  rcases res1 with e | vs
  · simp only at h
    obtain ⟨-, h2⟩ := Prod.mk.injEq .. ▸ h
    exact h2 ▸ hK
  · rcases fact with _ | v | c
    all_goals
      simp only at h
      obtain ⟨-, h2⟩ := Prod.mk.injEq .. ▸ h
    · exact h2 ▸ hK
    · exact h2 ▸ hK
    · exact h2 ▸ hK.heapOnly _ _

/-- The conclusions `resolveBody` guarantees when called (as `resolve` does)
with its token on the resolution stack and uncached: the stack is untouched,
cached entries survive, uncached stacked tokens other than `tok` stay
uncached, and on failure `tok` itself is still uncached. -/
def BodySpec (st : State) (tok : Token) (res : Except DIErr JSValue)
    (st' : State) : Prop :=
  st'.resolutionStack = st.resolutionStack ∧ instKeeps st st' ∧
  (∀ k, k ∈ st.resolutionStack → k ≠ tok →
    mapGet? st.instances k = none → mapGet? st'.instances k = none) ∧
  (∀ e, res = .error e → mapGet? st'.instances tok = none)

/-- `BodySpec` for a branch that ends in the cache write
`instances.set(token, instance)` after a sub-computation satisfying
`Keeps`. -/
theorem bodySpec_of_set {st st1 : State} {tok : Token} {v : JSValue}
    (hK : Keeps st st1) (hnone : mapGet? st.instances tok = none) :
    BodySpec st tok (.ok v)
      { st1 with instances := mapSet st1.instances tok v } := by
  obtain ⟨hs, hi, hn⟩ := hK
  refine ⟨hs, ?_, ?_, ?_⟩
  · intro k w hk
    by_cases hkt : k = tok
    · subst hkt; rw [hnone] at hk; cases hk
    · simpa [mapGet?_mapSet_ne _ _ _ _ hkt] using hi k w hk
  · intro k hk hkt hkn
    simpa [mapGet?_mapSet_ne _ _ _ _ hkt] using hn k hk hkn
  · intro e he; cases he

/-- `BodySpec` for a branch that stops (with any result) at a sub-state
satisfying `Keeps`, without performing the cache write. -/
theorem bodySpec_of_keeps {st st1 : State} {tok : Token}
    {res : Except DIErr JSValue} (hK : Keeps st st1)
    (hmem : tok ∈ st.resolutionStack)
    (hnone : mapGet? st.instances tok = none) :
    BodySpec st tok res st1 := by
  obtain ⟨hs, hi, hn⟩ := hK
  exact ⟨hs, hi, fun k hk _ hkn => hn k hk hkn, fun _ _ => hn tok hmem hnone⟩

theorem resolveBody_spec (env : Env) (r : RFun) (hr : GoodR r)
    (st : State) (tok : Token) (res : Except DIErr JSValue) (st' : State)
    (hmem : tok ∈ st.resolutionStack)
    (hnone : mapGet? st.instances tok = none)
    (h : resolveBody env r st tok = (res, st')) : BodySpec st tok res st' := by
  unfold resolveBody at h
  rcases hp : mapGet? st.providers tok with _ | p
  · rw [hp] at h
    rcases tok with s | c | t
    · simp only at h
      obtain ⟨h1, h2⟩ := Prod.mk.injEq .. ▸ h
      subst h2
      exact bodySpec_of_keeps (Keeps.refl st) hmem hnone
    · have hK := instantiateClass_keeps env r hr st c res st' h
      exact bodySpec_of_keeps hK hmem hnone
    · simp only at h
      obtain ⟨h1, h2⟩ := Prod.mk.injEq .. ▸ h
      subst h2
      exact bodySpec_of_keeps (Keeps.refl st) hmem hnone
  · rw [hp] at h
    rcases p with c | ⟨t, c, deps, oi, od⟩ | ⟨t, v⟩ | ⟨t, f, deps, oi, od⟩
    · -- bare class constructor (else branch)
      simp only [isClassProvider, isValueProvider, isFactoryProvider,
        Bool.false_eq_true, if_false] at h
      rcases hic : instantiateClass env r st c with ⟨res1, st1⟩
      rw [hic] at h
      have hK := instantiateClass_keeps env r hr st c res1 st1 hic
      rcases res1 with e | v
      · simp only at h
        obtain ⟨h1, h2⟩ := Prod.mk.injEq .. ▸ h
        subst h2; subst h1
        exact bodySpec_of_keeps hK hmem hnone
      · simp only at h
        split at h
        · obtain ⟨h1, h2⟩ := Prod.mk.injEq .. ▸ h
          subst h2; subst h1
          exact bodySpec_of_keeps hK hmem hnone
        · obtain ⟨h1, h2⟩ := Prod.mk.injEq .. ▸ h
          subst h2; subst h1
          exact bodySpec_of_set hK hnone
    · -- class provider
      simp only [isClassProvider, if_true] at h
      rcases hic : instantiateClass env r st c with ⟨res1, st1⟩
      rw [hic] at h
      have hK := instantiateClass_keeps env r hr st c res1 st1 hic
      rcases res1 with e | v
      · simp only at h
        obtain ⟨h1, h2⟩ := Prod.mk.injEq .. ▸ h
        subst h2; subst h1
        exact bodySpec_of_keeps hK hmem hnone
      · simp only at h
        rcases hh : runOnInitHooks env oi v with e | u
        · rw [hh] at h
          simp only at h
          obtain ⟨h1, h2⟩ := Prod.mk.injEq .. ▸ h
          subst h2; subst h1
          exact bodySpec_of_keeps hK hmem hnone
        · rw [hh] at h
          simp only at h
          obtain ⟨h1, h2⟩ := Prod.mk.injEq .. ▸ h
          subst h2; subst h1
          exact bodySpec_of_set hK hnone
    · -- value provider object (including `useValue: undefined`)
      by_cases hv : v = JSValue.undef
      · subst hv
        simp [isClassProvider, isValueProvider, isFactoryProvider] at h
        obtain ⟨h1, h2⟩ := h
        subst h2; subst h1
        exact bodySpec_of_keeps (Keeps.refl st) hmem hnone
      · simp [isClassProvider, isValueProvider, isFactoryProvider, hv] at h
        obtain ⟨h1, h2⟩ := h
        subst h2; subst h1
        exact bodySpec_of_set (Keeps.refl st) hnone
    · -- factory provider
      simp only [isClassProvider, isValueProvider, isFactoryProvider,
        Bool.false_eq_true, if_false, if_true] at h
      rcases hif : instantiateFactory env r st f deps with ⟨res1, st1⟩
      rw [hif] at h
      have hK := instantiateFactory_keeps env r hr st f deps res1 st1 hif
      rcases res1 with e | v
      · simp only at h
        obtain ⟨h1, h2⟩ := Prod.mk.injEq .. ▸ h
        subst h2; subst h1
        exact bodySpec_of_keeps hK hmem hnone
      · simp only at h
        rcases hh : runOnInitHooks env oi v with e | u
        · rw [hh] at h
          simp only at h
          obtain ⟨h1, h2⟩ := Prod.mk.injEq .. ▸ h
          subst h2; subst h1
          exact bodySpec_of_keeps hK hmem hnone
        · rw [hh] at h
          simp only at h
          obtain ⟨h1, h2⟩ := Prod.mk.injEq .. ▸ h
          subst h2; subst h1
          exact bodySpec_of_set hK hnone

theorem mapHas_false_get_none {α β : Type} [DecidableEq α]
    {m : List (α × β)} {a : α} (h : mapHas m a = false) : mapGet? m a = none := by
  unfold mapHas at h
  rcases hg : mapGet? m a with _ | b
  · rfl
  · rw [hg] at h; cases h

theorem mem_setAdd_self {α : Type} [DecidableEq α] (l : List α) (a : α) :
    a ∈ setAdd l a := by
  unfold setAdd
  split
  · assumption
  · simp

/-- Every internal (`skipCircularCheck = false`) `resolve` call maintains
`Keeps`: the resolution stack is restored on exit (the `finally` pop undoes
the push), no cached instance is ever replaced or removed, and a token that
was on the stack and uncached at entry is still uncached on exit. -/
theorem resolve_keeps (env : Env) :
    ∀ (fuel : Nat) (st : State) (tok : Token) (res : Except DIErr JSValue)
      (st' : State),
      resolve env fuel st tok false = (res, st') → Keeps st st' := by
  intro fuel
  induction fuel with
  | zero =>
    intro st tok res st' h
    simp only [resolve] at h
    obtain ⟨-, h2⟩ := Prod.mk.injEq .. ▸ h
    exact h2 ▸ Keeps.refl st
  | succ fuel ih =>
    intro st tok res st' h
    have hr : GoodR (fun s t => resolve env fuel s t false) :=
      fun s t res1 st1 hh => ih s t res1 st1 hh
    simp only [resolve] at h
    by_cases hc : mapHas st.instances tok = true
    · rw [if_pos hc] at h
      obtain ⟨-, h2⟩ := Prod.mk.injEq .. ▸ h
      exact h2 ▸ Keeps.refl st
    · rw [if_neg hc] at h
      by_cases hs : tok ∈ st.resolutionStack
      · rw [if_pos (by simp [hs])] at h
        obtain ⟨-, h2⟩ := Prod.mk.injEq .. ▸ h
        exact h2 ▸ Keeps.refl st
      · rw [if_neg (by simp [hs])] at h
        simp only [Bool.false_eq_true, if_false] at h
        rcases hb : resolveBody env (fun s t => resolve env fuel s t false)
          { st with resolutionStack := setAdd st.resolutionStack tok } tok
          with ⟨res2, st2⟩
        rw [hb] at h
        simp only at h
        obtain ⟨h1, h2⟩ := Prod.mk.injEq .. ▸ h
        have hnone1 : mapGet?
            { st with resolutionStack := setAdd st.resolutionStack tok
              }.instances tok = none :=
          mapHas_false_get_none (by simpa using hc)
        obtain ⟨hstack2, hinst2, hsnk2, -⟩ :=
          resolveBody_spec env _ hr _ tok res2 st2
            (mem_setAdd_self _ _) hnone1 hb
        refine h2 ▸ ⟨?_, ?_, ?_⟩
        · show setDel st2.resolutionStack tok = st.resolutionStack
          rw [hstack2]
          show setDel (setAdd st.resolutionStack tok) tok = _
          rw [setAdd_of_not_mem hs, setDel_append_self hs]
        · exact hinst2
        · intro k hk hkn
          have hkt : k ≠ tok := fun he => hs (he ▸ hk)
          exact hsnk2 k (by simp [setAdd_of_not_mem hs, List.mem_append, hk])
            hkt hkn

theorem joinSep_append_single (sep : String) :
    ∀ (l : List String) (x : String), l ≠ [] →
      joinSep sep (l ++ [x]) = joinSep sep l ++ sep ++ x := by
  intro l
  induction l with
  | nil => intro x h; cases h rfl
  | cons y ys ih =>
    intro x _
    rcases ys with _ | ⟨z, zs⟩
    · simp [joinSep]
    · have hih := ih x (by simp)
      calc joinSep sep ((y :: z :: zs) ++ [x])
          = y ++ sep ++ joinSep sep ((z :: zs) ++ [x]) := rfl
        _ = y ++ sep ++ (joinSep sep (z :: zs) ++ sep ++ x) := by
              exact congrArg (fun w => y ++ sep ++ w) hih
        _ = (y ++ sep ++ joinSep sep (z :: zs)) ++ sep ++ x := by
              simp [String.append_assoc]
        _ = joinSep sep (y :: z :: zs) ++ sep ++ x := rfl

/-! ## Claim theorems -/

/-- C1 (code bug): an unregistered class constructor token is resolved by
direct instantiation without the cache write: the first `resolve` fulfills
with a fresh instance, the instance cache still has no entry for the token,
and a second sequential `resolve` fulfills with a distinct (newly allocated)
instance — contradicting the claim, `resolve`'s own documentation ("The
result is cached for subsequent calls") and the README ("all resolved
instances are cached"). -/
theorem resolve_unregistered_ctor_never_cached :
    (resolve envTriv 5 emptyState (.ctor 0) false).1 = .ok (.obj 0 0) ∧
    mapGet? (resolve envTriv 5 emptyState (.ctor 0) false).2.instances
      (.ctor 0) = none ∧
    (resolve envTriv 5 (resolve envTriv 5 emptyState (.ctor 0) false).2
      (.ctor 0) false).1 = .ok (.obj 1 0) ∧
    JSValue.obj 0 0 ≠ JSValue.obj 1 0 := by decide

/-- C2: when the requested token is already on the resolution stack, the
circular check is not skipped and the token is not cached, `resolve` rejects
with the Circular Dependency error carrying the stack snapshot and the
offending token, leaves the state (in particular the resolution stack)
unchanged, and the rendered message is the stack tokens in stack order
followed by the offending token, joined by `" -> "`. -/
theorem resolve_circular_error (env : Env) (fuel : Nat) (st : State)
    (tok : Token) (hs : tok ∈ st.resolutionStack)
    (hc : mapHas st.instances tok = false) :
    resolve env (fuel + 1) st tok false =
      (.error (.circular st.resolutionStack tok), st) ∧
    circularMsg st.resolutionStack tok =
      "Circular dependency detected!\nChain: " ++
        joinSep " -> " ((st.resolutionStack ++ [tok]).map getTokenName) := by
  constructor
  · simp only [resolve]
    rw [if_neg (by simp [hc]), if_pos (by simp [hs])]
  · unfold circularMsg
    have hne : st.resolutionStack.map getTokenName ≠ [] := by
      simp only [ne_eq, List.map_eq_nil_iff]
      exact List.ne_nil_of_mem hs
    rw [List.map_append]
    simp only [List.map_cons, List.map_nil]
    rw [joinSep_append_single " -> " (st.resolutionStack.map getTokenName)
      (getTokenName tok) hne]
    simp [String.append_assoc]

theorem resolve_circular_error_witness :
    resolve envTriv 5 stMid (.str "A") false =
      (.error (.circular [.str "A", .str "B"] (.str "A")), stMid) ∧
    circularMsg [.str "A", .str "B"] (.str "A") =
      "Circular dependency detected!\nChain: " ++
        joinSep " -> "
          (([Token.str "A", Token.str "B"] ++ [Token.str "A"]).map
            getTokenName) :=
  resolve_circular_error envTriv 4 stMid (.str "A") (by decide) (by decide)

/-- C4: with class providers `A` and `B` each declaring its dependency on
the other lazily, `resolve(A)` fulfills with an instance of `A` holding a
`LazyRef` to `B`; while `B` is unresolved the handle's `isResolved()` is
`false` and `tryGetValue()` is empty; after `resolve(B)` fulfills, the same
handle reports `isResolved() = true` and `get()`/`value` return `B`'s cached
instance. -/
theorem lazy_cycle_break :
    (resolve envLazy 10 stLazy (.ctor 0) false).1 = .ok (.obj 0 0) ∧
    mapGet? stLazyA.objArgs 0 = some [.lazyRefV (.ctor 1)] ∧
    lazyIsResolved stLazyA (.ctor 1) = false ∧
    lazyTryGetValue stLazyA (.ctor 1) = .undef ∧
    (resolve envLazy 10 stLazyA (.ctor 1) false).1 = .ok (.obj 1 1) ∧
    lazyIsResolved stLazyB (.ctor 1) = true ∧
    lazyGet stLazyB (.ctor 1) = .ok (.obj 1 1) ∧
    mapGet? stLazyB.instances (.ctor 1) = some (.obj 1 1) := by decide

/-- C6: if a (non-bypass) `resolve` call rejects — for any source-level
error, i.e. anything but the fuel artifact — then the instance cache of the
final state has no entry for the failed token, while every instance cached
before the call (in particular previously resolved siblings) is still cached
unchanged. -/
theorem resolve_failure_leaves_token_uncached (env : Env) (fuel : Nat)
    (st : State) (tok : Token) (e : DIErr) (st' : State)
    (h : resolve env fuel st tok false = (.error e, st'))
    (hfe : e ≠ .fuelOut) :
    mapGet? st'.instances tok = none ∧
    ∀ k v, mapGet? st.instances k = some v →
      mapGet? st'.instances k = some v := by
  rcases fuel with _ | fuel
  · simp only [resolve] at h
    obtain ⟨h1, -⟩ := Prod.mk.injEq .. ▸ h
    exact absurd (Except.error.inj h1).symm hfe
  · have hr : GoodR (fun s t => resolve env fuel s t false) :=
      fun s t res1 st1 hh => resolve_keeps env fuel s t res1 st1 hh
    simp only [resolve] at h
    by_cases hc : mapHas st.instances tok = true
    · rw [if_pos hc] at h
      obtain ⟨h1, -⟩ := Prod.mk.injEq .. ▸ h
      cases h1
    · rw [if_neg hc] at h
      have hnone : mapGet? st.instances tok = none :=
        mapHas_false_get_none (by simpa using hc)
      by_cases hs : tok ∈ st.resolutionStack
      · rw [if_pos (by simp [hs])] at h
        obtain ⟨-, h2⟩ := Prod.mk.injEq .. ▸ h
        exact h2 ▸ ⟨hnone, fun k v hk => hk⟩
      · rw [if_neg (by simp [hs])] at h
        simp only [Bool.false_eq_true, if_false] at h
        rcases hb : resolveBody env (fun s t => resolve env fuel s t false)
          { st with resolutionStack := setAdd st.resolutionStack tok } tok
          with ⟨res2, st2⟩
        rw [hb] at h
        simp only at h
        obtain ⟨h1, h2⟩ := Prod.mk.injEq .. ▸ h
        have hnone1 : mapGet?
            { st with resolutionStack := setAdd st.resolutionStack tok
              }.instances tok = none := hnone
        obtain ⟨-, hinst2, -, herr2⟩ :=
          resolveBody_spec env _ hr _ tok res2 st2
            (mem_setAdd_self _ _) hnone1 hb
        constructor
        · rw [← h2]
          exact herr2 e h1
        · intro k v hk
          rw [← h2]
          exact hinst2 k v hk

theorem resolve_failure_leaves_token_uncached_witness :
    mapGet? stFail'.instances (.str "F") = none ∧
    mapGet? stFail'.instances (.ctor 0) = some (.obj 0 0) :=
  ⟨(resolve_failure_leaves_token_uncached envTriv 10 stFail (.str "F")
      .userThrown stFail' (by decide) (by decide)).1, by decide⟩

/-- C7 (counterexample): registering a value provider for a token that
already has a cached value replaces the cached entry — the cache changed
without `clear()`, `destroy()` or a reset, falsifying the claim. -/
theorem cached_value_overwritten_cex :
    mapGet? stOv1.instances (.str "X") = some (.numV 1) ∧
    mapGet? (register stOv1 (.valueP (.str "X") (.numV 2))).instances
      (.str "X") = some (.numV 2) := by decide

/-- C7 (amended): once cached, a token's value is never removed or replaced
by `resolve`, and `register` never touches it either — except that
registering a value provider overwrites the cached entry for its own token
(and only that token). -/
theorem cache_entry_stability (env : Env) :
    (∀ st p, isValueProvider p = false →
      (register st p).instances = st.instances) ∧
    (∀ st t v, v ≠ JSValue.undef →
      mapGet? (register st (.valueP t v)).instances t = some v ∧
      ∀ k, k ≠ t → mapGet? (register st (.valueP t v)).instances k =
        mapGet? st.instances k) ∧
    (∀ fuel st tok res st', resolve env fuel st tok false = (res, st') →
      ∀ k v, mapGet? st.instances k = some v →
        mapGet? st'.instances k = some v) := by
  refine ⟨?_, ?_, ?_⟩
  · intro st p hp
    unfold register
    by_cases hcl : isClassProvider p = true
    · simp only [hcl, if_true]
      rcases provOnDestroy p with _ | b <;> simp
    · simp only [hcl, Bool.false_eq_true, if_false, hp]
      by_cases hf : isFactoryProvider p = true
      · simp only [hf, if_true]
        rcases provOnDestroy p with _ | b <;> simp
      · simp [hf]
  · intro st t v hv
    have hkey : getProviderKey (.valueP t v) = t := by
      simp [getProviderKey, hv]
    unfold register
    simp only [hkey, isClassProvider, Bool.false_eq_true, if_false,
      isValueProvider]
    rw [if_pos (by simp [hv])]
    constructor
    · simp [mapGet?_mapSet_self]
    · intro k hk
      simp [mapGet?_mapSet_ne _ _ _ _ hk]
  · intro fuel st tok res st' h k v hk
    exact (resolve_keeps env fuel st tok res st' h).2.1 k v hk

theorem cache_entry_stability_witness :
    (register stOv1 (.ctorP 0)).instances = stOv1.instances ∧
    mapGet? (register stOv1 (.valueP (.str "Y") (.numV 3))).instances
      (.str "Y") = some (.numV 3) ∧
    mapGet? stOv2.instances (.str "X") = some (.numV 1) :=
  ⟨(cache_entry_stability envTriv).1 stOv1 (.ctorP 0) (by decide),
    ((cache_entry_stability envTriv).2.1 stOv1 (.str "Y") (.numV 3)
      (by decide)).1,
    (cache_entry_stability envTriv).2.2 5 stOv1 (.ctor 0) (.ok (.obj 0 0))
      stOv2 (by decide) (.str "X") (.numV 1) (by decide)⟩

/-- C10 (counterexample): after registering `{provide: 'X', useValue:
undefined}`, resolving `'X'` rejects with the No Provider Found error — the
claim asserted that error is not raised. -/
theorem undefined_useValue_cex :
    (resolve envTriv 5 stUndef (.str "X") false).1 =
      .error (.noProvider (.str "X")) := by decide

/-- C10 (amended): a provider object whose `useValue` is `undefined` is not
recognised as a value provider: `register` stores it keyed by the provider
object itself (not by its `provide` token) and places nothing in the
instance cache; a subsequent `resolve` of the (string) token finds no
provider and rejects with No Provider Found; resolving the object key
dispatches to the bare-class branch, which rejects because the provider
object is not a constructor. -/
theorem resolve_str_noProvider (env : Env) (fuel : Nat) (st1 : State)
    (s : String) (hc : mapHas st1.instances (.str s) = false)
    (hs : (Token.str s) ∉ st1.resolutionStack)
    (hnp : mapGet? st1.providers (.str s) = none) :
    (resolve env (fuel + 1) st1 (.str s) false).1 =
      .error (.noProvider (.str s)) := by
  simp only [resolve]
  rw [if_neg (by simp [hc]), if_neg (by simp [hs])]
  simp only [Bool.false_eq_true, if_false]
  rcases hb : resolveBody env (fun s' t => resolve env fuel s' t false)
    { st1 with resolutionStack := setAdd st1.resolutionStack (.str s) }
    (.str s) with ⟨res2, st2⟩
  have hres : res2 = .error (.noProvider (.str s)) := by
    unfold resolveBody at hb
    rw [show mapGet?
      ({ st1 with resolutionStack := setAdd st1.resolutionStack (.str s) }
        : State).providers (.str s) = none from hnp] at hb
    simp only at hb
    exact ((Prod.mk.injEq .. ▸ hb).1).symm
  exact hres

theorem resolve_undefined_valueP_notAConstructor (env : Env) (fuel : Nat)
    (st1 : State) (tok t : Token)
    (hc : mapHas st1.instances tok = false)
    (hs : tok ∉ st1.resolutionStack)
    (hp : mapGet? st1.providers tok = some (.valueP t .undef)) :
    (resolve env (fuel + 1) st1 tok false).1 = .error .notAConstructor := by
  simp only [resolve]
  rw [if_neg (by simp [hc]), if_neg (by simp [hs])]
  simp only [Bool.false_eq_true, if_false]
  rcases hb : resolveBody env (fun s' t' => resolve env fuel s' t' false)
    { st1 with resolutionStack := setAdd st1.resolutionStack tok }
    tok with ⟨res2, st2⟩
  have hres : res2 = .error .notAConstructor := by
    unfold resolveBody at hb
    rw [show mapGet?
      ({ st1 with resolutionStack := setAdd st1.resolutionStack tok }
        : State).providers tok =
      some (.valueP t .undef) from hp] at hb
    simp [isClassProvider, isValueProvider, isFactoryProvider] at hb
    exact hb.1.symm
  exact hres

/-- C10 (amended): a provider object whose `useValue` is `undefined` is not
recognised as a value provider: `register` stores it keyed by the provider
object itself (not by its `provide` token) and places nothing in the
instance cache; a subsequent `resolve` of the (string) token finds no
provider and rejects with No Provider Found; resolving the object key
dispatches past all three provider guards to the bare-class branch, which
rejects because the provider object is not a constructor. -/
theorem undefined_useValue_behaviour (env : Env) (st : State) (s : String) :
    (register st (.valueP (.str s) .undef)).instances = st.instances ∧
    mapGet? (register st (.valueP (.str s) .undef)).providers
      (.objKey (.str s)) = some (.valueP (.str s) .undef) ∧
    (mapGet? st.providers (.str s) = none →
      mapGet? (register st (.valueP (.str s) .undef)).providers (.str s) =
        none) ∧
    (∀ fuel, mapHas st.instances (.str s) = false →
      (Token.str s) ∉ st.resolutionStack →
      mapGet? st.providers (.str s) = none →
      (resolve env (fuel + 1) (register st (.valueP (.str s) .undef))
        (.str s) false).1 = .error (.noProvider (.str s))) ∧
    (∀ fuel, mapHas st.instances (.objKey (.str s)) = false →
      (Token.objKey (.str s)) ∉ st.resolutionStack →
      (resolve env (fuel + 1) (register st (.valueP (.str s) .undef))
        (.objKey (.str s)) false).1 = .error .notAConstructor) := by
  have hreg : register st (.valueP (.str s) .undef) =
      { st with providers :=
          mapSet st.providers (.objKey (.str s)) (.valueP (.str s) .undef) } := by
    unfold register
    simp [isClassProvider, isValueProvider, isFactoryProvider, getProviderKey]
  refine ⟨?_, ?_, ?_, ?_, ?_⟩
  · rw [hreg]
  · rw [hreg]
    exact mapGet?_mapSet_self _ _ _
  · intro hnp
    rw [hreg]
    show mapGet? (mapSet st.providers _ _) (.str s) = none
    rw [mapGet?_mapSet_ne _ _ _ _ (by intro hh; cases hh)]
    exact hnp
  · intro fuel hc hs hnp
    rw [hreg]
    refine resolve_str_noProvider env fuel _ s hc hs ?_
    show mapGet? (mapSet st.providers _ _) (.str s) = none
    rw [mapGet?_mapSet_ne _ _ _ _ (by intro hh; cases hh)]
    exact hnp
  · intro fuel hc hs
    rw [hreg]
    refine resolve_undefined_valueP_notAConstructor env fuel _ _
      (.str s) hc hs ?_
    exact mapGet?_mapSet_self _ _ _

/-- Cycle short-circuit of the weight walk: a token already on the visited
path contributes weight `0`. -/
theorem weightRec_mem_visited (env : Env) (st : State) (visited : List Token)
    (d : Token) (h : d ∈ visited) :
    calculateWeightRecursive env st visited d = 0 := by
  rw [calculateWeightRecursive]
  simp [h]

/-- C3 (counterexample): for a class provider whose only (non-lazy) weight
dependency is its own token — i.e. a token with no non-cyclic dependencies —
`calculateWeight` returns `1`, not the `0` the claim's zero-condition
demands. -/
theorem weight_zero_condition_cex :
    providerWeightDeps envTriv
      (.classP (.str "A") 0 (some [.str "A"]) none none) = [.str "A"] ∧
    mapGet? stSelf.providers (.str "A") =
      some (.classP (.str "A") 0 (some [.str "A"]) none none) ∧
    (calculateWeight envTriv stSelf (.str "A")).1 = 1 := by
  refine ⟨?_, by decide, ?_⟩
  · simp [providerWeightDeps, flattenDeps, flattenDepsGo, groupOfTok,
      getClassDependencies, gcdLoop, jsDedup, jsDedupGo, envTriv, mapGet?]
  · simp [calculateWeight, calculateWeightRecursive, weightDepsMax, stSelf,
      register, emptyState, getProviderKey, isClassProvider, isValueProvider,
      isFactoryProvider, provOnDestroy, mapGet?, mapSet, providerWeightDeps,
      flattenDeps, flattenDepsGo, groupOfTok, getClassDependencies, gcdLoop,
      jsDedup, jsDedupGo, envTriv]

/-- C3 (amended): `calculateWeight` is memoized per token (a cached entry is
returned as-is, otherwise the result is written to the cache); the result is
`0` for an unregistered token, a value provider, or a token whose gathered
non-lazy dependency list (explicit deps flattened through groups for
factories; the deduplicated union of flattened explicit deps and
constructor-derived deps for class providers; constructor-derived deps for
bare classes — `providerWeightDeps`) is empty; otherwise it is `1 +` the
maximum recursive weight of those dependencies, where a dependency already
on the current depth-first path contributes `0` (so a token whose every
dependency is cyclic has weight `1`, not `0`). -/
theorem calculateWeight_characterisation (env : Env) (st : State)
    (t : Token) :
    (∀ w, mapGet? st.weightCache t = some w →
      calculateWeight env st t = (w, st)) ∧
    (mapGet? st.weightCache t = none →
      mapGet? (calculateWeight env st t).2.weightCache t =
        some (calculateWeight env st t).1 ∧
      (mapGet? st.providers t = none → (calculateWeight env st t).1 = 0) ∧
      (∀ p, mapGet? st.providers t = some p → isValueProvider p = true →
        (calculateWeight env st t).1 = 0) ∧
      (∀ p, mapGet? st.providers t = some p → isValueProvider p = false →
        providerWeightDeps env p = [] → (calculateWeight env st t).1 = 0) ∧
      (∀ p d ds, mapGet? st.providers t = some p → isValueProvider p = false →
        providerWeightDeps env p = d :: ds →
        (calculateWeight env st t).1 =
          weightDepsMax env st [t] (d :: ds) + 1)) ∧
    (∀ visited d, d ∈ visited →
      calculateWeightRecursive env st visited d = 0) := by
  refine ⟨?_, ?_, fun visited d h => weightRec_mem_visited env st visited d h⟩
  · intro w hw
    unfold calculateWeight
    rw [hw]
  · intro hnone
    rcases hp : mapGet? st.providers t with _ | p
    · have hcw : calculateWeight env st t =
          (0, { st with weightCache := mapSet st.weightCache t 0 }) := by
        unfold calculateWeight
        simp only [hnone, hp]
      refine ⟨(by simp [hcw, mapGet?_mapSet_self]), (fun _ => by simp [hcw]),
        ?_, ?_, ?_⟩
      · intro p hp' _
        cases hp'
      · intro p hp' _ _
        cases hp'
      · intro p d ds hp' _ _
        cases hp'
    · by_cases hval : isValueProvider p = true
      · have hcw : calculateWeight env st t =
            (0, { st with weightCache := mapSet st.weightCache t 0 }) := by
          unfold calculateWeight
          simp only [hnone, hp, hval, if_true]
        refine ⟨(by simp [hcw, mapGet?_mapSet_self]), (fun hh => by cases hh),
          (fun _ _ _ => by simp [hcw]), ?_, ?_⟩
        · intro p' hp' hval' _
          cases hp'
          rw [hval] at hval'; cases hval'
        · intro p' d ds hp' hval' _
          cases hp'
          rw [hval] at hval'; cases hval'
      · have hval' : isValueProvider p = false := by
          simpa using hval
        have hcw : calculateWeight env st t =
            (calculateWeightRecursive env st [] t,
              { st with weightCache := mapSet st.weightCache t (calculateWeightRecursive env st [] t) }) := by
          unfold calculateWeight
          simp only [hnone, hp, hval', Bool.false_eq_true, if_false]
        refine ⟨(by simp [hcw, mapGet?_mapSet_self]),
          (fun hh => by cases hh),
          (fun p' hp' hv => by
            cases hp'; rw [hval'] at hv; cases hv),
          ?_, ?_⟩
        · intro p' hp' _ hdeps
          cases hp'
          rw [hcw]
          show calculateWeightRecursive env st [] t = 0
          rw [calculateWeightRecursive]
          simp only [List.not_mem_nil, if_false, List.nil_append]
          split
          · rename_i heq
            simp [hp] at heq
          · rename_i p' heq
            rw [hp] at heq; cases heq
            simp [hval', hdeps]
        · intro p' d ds hp' _ hdeps
          cases hp'
          rw [hcw]
          show calculateWeightRecursive env st [] t =
            weightDepsMax env st [t] (d :: ds) + 1
          rw [calculateWeightRecursive]
          simp only [List.not_mem_nil, if_false, List.nil_append]
          split
          · rename_i heq
            simp [hp] at heq
          · rename_i p' heq
            rw [hp] at heq; cases heq
            simp [hval', hdeps]

theorem calculateWeight_characterisation_witness :
    (calculateWeight envTriv stSelf (.str "A")).1 =
      weightDepsMax envTriv stSelf [.str "A"] [.str "A"] + 1 ∧
    calculateWeightRecursive envTriv stSelf [.str "A"] (.str "A") = 0 :=
  ⟨((calculateWeight_characterisation envTriv stSelf (.str "A")).2.1
      (by decide)).2.2.2.2
      (.classP (.str "A") 0 (some [.str "A"]) none none) (.str "A") []
      (by decide) (by decide)
      (by simp [providerWeightDeps, flattenDeps, flattenDepsGo, groupOfTok,
        getClassDependencies, gcdLoop, jsDedup, jsDedupGo, envTriv, mapGet?]),
    (calculateWeight_characterisation envTriv stSelf (.str "A")).2.2
      [.str "A"] (.str "A") (by decide)⟩

theorem undefined_useValue_behaviour_witness :
    stUndef.instances = emptyState.instances ∧
    (resolve envTriv 5 stUndef (.str "X") false).1 =
      .error (.noProvider (.str "X")) ∧
    (resolve envTriv 5 stUndef (.objKey (.str "X")) false).1 =
      .error .notAConstructor :=
  ⟨(undefined_useValue_behaviour envTriv emptyState "X").1,
    (undefined_useValue_behaviour envTriv emptyState "X").2.2.2.1 4
      (by decide) (by decide) (by decide),
    (undefined_useValue_behaviour envTriv emptyState "X").2.2.2.2 4
      (by decide) (by decide)⟩

/-! ## Weight monotonicity (C5) -/

theorem le_weightDepsMax (env : Env) (st : State) (visited : List Token)
    {b : Token} :
    ∀ {l : List Token}, b ∈ l →
      calculateWeightRecursive env st visited b ≤
        weightDepsMax env st visited l := by
  intro l
  induction l with
  | nil => intro h; cases h
  | cons d ds ih =>
    intro h
    rw [weightDepsMax]
    rcases List.mem_cons.mp h with h | h
    · subst h; exact Nat.le_max_left _ _
    · exact Nat.le_trans (ih h) (Nat.le_max_right _ _)

theorem weightDepsMax_congr (env : Env) (st : State) (v1 v2 : List Token) :
    ∀ l : List Token,
      (∀ x ∈ l, calculateWeightRecursive env st v1 x =
        calculateWeightRecursive env st v2 x) →
      weightDepsMax env st v1 l = weightDepsMax env st v2 l := by
  intro l
  induction l with
  | nil => intro _; rw [weightDepsMax, weightDepsMax]
  | cons d ds ih =>
    intro h
    rw [weightDepsMax, weightDepsMax,
      h d (List.mem_cons_self _ _), ih (fun x hx => h x (List.mem_cons_of_mem _ hx))]

theorem dir_elim {env : Env} {st : State} {a b : Token}
    (h : Dir env st a b) :
    ∃ p, mapGet? st.providers a = some p ∧ isValueProvider p = false ∧
      b ∈ providerWeightDeps env p := by
  unfold Dir depsOf at h
  rcases hp : mapGet? st.providers a with _ | p
  · rw [hp] at h; cases h
  · rw [hp] at h
    simp only at h
    by_cases hv : isValueProvider p = true
    · rw [if_pos hv] at h; cases h
    · rw [if_neg hv] at h
      exact ⟨p, rfl, by simpa using hv, h⟩

theorem dir_intro {env : Env} {st : State} {a b : Token} {p : Provider}
    (hp : mapGet? st.providers a = some p) (hv : isValueProvider p = false)
    (hmem : b ∈ providerWeightDeps env p) : Dir env st a b := by
  unfold Dir depsOf
  rw [hp]
  simp only
  rw [if_neg (by simp [hv])]
  exact hmem

theorem wMeasure_append_lt {st : State} {visited : List Token} {t : Token}
    (ht : t ∈ st.providers.map Prod.fst) (hv : t ∉ visited) :
    wMeasure st (visited ++ [t]) < wMeasure st visited :=
  filter_notmem_append_lt _ _ _ ht hv

theorem weightRec_zero_of_unreg (env : Env) (st : State) (visited : List Token)
    (t : Token) (hp : mapGet? st.providers t = none) :
    calculateWeightRecursive env st visited t = 0 := by
  rw [calculateWeightRecursive]
  by_cases hv : t ∈ visited
  · rw [if_pos hv]
  · rw [if_neg hv]
    split
    · rfl
    · rename_i p heq
      rw [hp] at heq; cases heq

theorem weightRec_zero_of_value (env : Env) (st : State) (visited : List Token)
    (t : Token) (p : Provider) (hp : mapGet? st.providers t = some p)
    (hval : isValueProvider p = true) :
    calculateWeightRecursive env st visited t = 0 := by
  rw [calculateWeightRecursive]
  by_cases hv : t ∈ visited
  · rw [if_pos hv]
  · rw [if_neg hv]
    split
    · rfl
    · rename_i p' heq
      rw [hp] at heq; cases heq
      simp [hval]

theorem weightRec_zero_of_nodeps (env : Env) (st : State) (visited : List Token)
    (t : Token) (p : Provider) (hp : mapGet? st.providers t = some p)
    (hdeps : providerWeightDeps env p = []) :
    calculateWeightRecursive env st visited t = 0 := by
  rw [calculateWeightRecursive]
  by_cases hv : t ∈ visited
  · rw [if_pos hv]
  · rw [if_neg hv]
    split
    · rfl
    · rename_i p' heq
      rw [hp] at heq; cases heq
      by_cases hval : isValueProvider p = true
      · simp [hval]
      · simp [hval, hdeps]

theorem weightRec_eq_of_deps (env : Env) (st : State) (visited : List Token)
    (t : Token) (p : Provider) (d : Token) (ds : List Token)
    (hv : t ∉ visited) (hp : mapGet? st.providers t = some p)
    (hval : isValueProvider p = false)
    (hdeps : providerWeightDeps env p = d :: ds) :
    calculateWeightRecursive env st visited t =
      weightDepsMax env st (visited ++ [t]) (d :: ds) + 1 := by
  rw [calculateWeightRecursive, if_neg hv]
  split
  · rename_i heq
    simp [hp] at heq
  · rename_i p' heq
    rw [hp] at heq; cases heq
    simp [hval, hdeps]

/-- In an acyclic graph, the weight of a token is independent of a visited
set disjoint from everything reachable from it. -/
theorem weightRec_visited_irrelevant (env : Env) (st : State) :
    ∀ n v1 v2 t, wMeasure st v1 ≤ n → wMeasure st v2 ≤ n →
      (∀ t', ¬ Relation.TransGen (Dir env st) t' t') →
      (∀ x, Relation.ReflTransGen (Dir env st) t x → x ∉ v1 ∧ x ∉ v2) →
      calculateWeightRecursive env st v1 t =
        calculateWeightRecursive env st v2 t := by
  intro n
  induction n using Nat.strong_induction_on with
  | _ n ih =>
    intro v1 v2 t h1 h2 hacyc hreach
    have ht1 : t ∉ v1 := (hreach t Relation.ReflTransGen.refl).1
    have ht2 : t ∉ v2 := (hreach t Relation.ReflTransGen.refl).2
    rcases hp : mapGet? st.providers t with _ | p
    · rw [weightRec_zero_of_unreg env st v1 t hp,
        weightRec_zero_of_unreg env st v2 t hp]
    · by_cases hval : isValueProvider p = true
      · rw [weightRec_zero_of_value env st v1 t p hp hval,
          weightRec_zero_of_value env st v2 t p hp hval]
      · have hval' : isValueProvider p = false := by simpa using hval
        rcases hdeps : providerWeightDeps env p with _ | ⟨d, ds⟩
        · rw [weightRec_zero_of_nodeps env st v1 t p hp hdeps,
            weightRec_zero_of_nodeps env st v2 t p hp hdeps]
        · rw [weightRec_eq_of_deps env st v1 t p d ds ht1 hp hval' hdeps,
            weightRec_eq_of_deps env st v2 t p d ds ht2 hp hval' hdeps]
          congr 1
          have htk : t ∈ st.providers.map Prod.fst := mapGet?_some_mem_keys hp
          have hm1 : wMeasure st (v1 ++ [t]) < wMeasure st v1 :=
            wMeasure_append_lt htk ht1
          have hm2 : wMeasure st (v2 ++ [t]) < wMeasure st v2 :=
            wMeasure_append_lt htk ht2
          apply weightDepsMax_congr env st (v1 ++ [t]) (v2 ++ [t]) (d :: ds)
          intro x hx
          have hdirx : Dir env st t x :=
            dir_intro hp hval' (hdeps ▸ hx)
          apply ih (Nat.max (wMeasure st (v1 ++ [t])) (wMeasure st (v2 ++ [t])))
            (Nat.max_lt.mpr ⟨Nat.lt_of_lt_of_le hm1 h1,
              Nat.lt_of_lt_of_le hm2 h2⟩)
            _ _ x (Nat.le_max_left _ _) (Nat.le_max_right _ _) hacyc
          intro y hy
          have hty : Relation.ReflTransGen (Dir env st) t y :=
            Relation.ReflTransGen.head hdirx hy
          have hnv := hreach y hty
          constructor
          · intro hymem
            rcases List.mem_append.mp hymem with hm | hm
            · exact hnv.1 hm
            · have hyt : y = t := by simpa using hm
              have htg : Relation.TransGen (Dir env st) t y :=
                Relation.TransGen.head' hdirx hy
              rw [hyt] at htg
              exact hacyc t htg
          · intro hymem
            rcases List.mem_append.mp hymem with hm | hm
            · exact hnv.2 hm
            · have hyt : y = t := by simpa using hm
              have htg : Relation.TransGen (Dir env st) t y :=
                Relation.TransGen.head' hdirx hy
              rw [hyt] at htg
              exact hacyc t htg

theorem weightRec_lt_of_dir (env : Env) (st : State)
    (hacyc : ∀ t', ¬ Relation.TransGen (Dir env st) t' t')
    {a b : Token} (hd : Dir env st a b) :
    calculateWeightRecursive env st [] b <
      calculateWeightRecursive env st [] a := by
  obtain ⟨p, hp, hval, hmem⟩ := dir_elim hd
  rcases hdeps : providerWeightDeps env p with _ | ⟨d, ds⟩
  · rw [hdeps] at hmem; cases hmem
  · rw [weightRec_eq_of_deps env st [] a p d ds (by simp) hp hval hdeps]
    have h1 : calculateWeightRecursive env st ([] ++ [a]) b ≤
        weightDepsMax env st ([] ++ [a]) (d :: ds) :=
      le_weightDepsMax env st ([] ++ [a]) (hdeps ▸ hmem)
    have h2 : calculateWeightRecursive env st ([] ++ [a]) b =
        calculateWeightRecursive env st [] b := by
      apply weightRec_visited_irrelevant env st
        (Nat.max (wMeasure st ([] ++ [a])) (wMeasure st []))
        _ _ b (Nat.le_max_left _ _) (Nat.le_max_right _ _) hacyc
      intro y hy
      refine ⟨?_, by simp⟩
      intro hymem
      have hya : y = a := by simpa using hymem
      have htg : Relation.TransGen (Dir env st) a y :=
        Relation.TransGen.head' hd hy
      rw [hya] at htg
      exact hacyc a htg
    omega

theorem weightRec_lt_of_trans (env : Env) (st : State)
    (hacyc : ∀ t', ¬ Relation.TransGen (Dir env st) t' t')
    {a b : Token} (h : Relation.TransGen (Dir env st) a b) :
    calculateWeightRecursive env st [] b <
      calculateWeightRecursive env st [] a := by
  induction h with
  | single hd => exact weightRec_lt_of_dir env st hacyc hd
  | tail _ hd ih =>
    exact Nat.lt_trans (weightRec_lt_of_dir env st hacyc hd) ih

theorem calculateWeight_fst_eq_weightRec (env : Env) (st : State) (t : Token)
    (hnone : mapGet? st.weightCache t = none) :
    (calculateWeight env st t).1 = calculateWeightRecursive env st [] t := by
  unfold calculateWeight
  rcases hp : mapGet? st.providers t with _ | p
  · simp [hnone, hp, weightRec_zero_of_unreg env st [] t hp]
  · by_cases hval : isValueProvider p = true
    · simp [hnone, hp, hval, weightRec_zero_of_value env st [] t p hp hval]
    · simp [hnone, hp, hval]

/-- C5 (amended): on an acyclic (non-lazy) dependency graph and with no
stale weight-cache entries for the tokens involved, transitive structural
dependency implies strictly smaller weight; the weight is always a
non-negative integer; and a token registered as a value provider has weight
`0` provided its weight-cache entry is fresh. -/
theorem weight_monotonicity_amended (env : Env) (st : State) :
    (∀ a b, (∀ t, ¬ Relation.TransGen (Dir env st) t t) →
      Relation.TransGen (Dir env st) a b →
      mapGet? st.weightCache a = none → mapGet? st.weightCache b = none →
      (calculateWeight env st b).1 < (calculateWeight env st a).1) ∧
    (∀ t, (0 : Int) ≤ ((calculateWeight env st t).1 : Int)) ∧
    (∀ t p, mapGet? st.weightCache t = none →
      mapGet? st.providers t = some p → isValueProvider p = true →
      (calculateWeight env st t).1 = 0) := by
  refine ⟨?_, ?_, ?_⟩
  · intro a b hacyc htrans ha hb
    rw [calculateWeight_fst_eq_weightRec env st a ha,
      calculateWeight_fst_eq_weightRec env st b hb]
    exact weightRec_lt_of_trans env st hacyc htrans
  · intro t
    exact Int.natCast_nonneg _
  · intro t p hnone hp hval
    unfold calculateWeight
    simp [hnone, hp, hval]

/-- In `stChain` the only structural dependency edge is `A → B`. -/
theorem stChain_dir_char : ∀ x y, Dir envTriv stChain x y →
    x = Token.str "A" ∧ y = Token.str "B" := by
  intro x y h
  obtain ⟨p, hp, hval, hmem⟩ := dir_elim h
  have hprov : stChain.providers =
      [(.str "A", .classP (.str "A") 0 (some [.str "B"]) none none),
        (.str "B", .valueP (.str "B") (.numV 1))] := by decide
  rw [hprov] at hp
  simp only [mapGet?] at hp
  by_cases hA : Token.str "A" = x
  · rw [if_pos hA] at hp
    cases hp
    have hdeps : providerWeightDeps envTriv
        (.classP (.str "A") 0 (some [.str "B"]) none none) = [.str "B"] := by
      simp [providerWeightDeps, flattenDeps, flattenDepsGo, groupOfTok,
        getClassDependencies, gcdLoop, jsDedup, jsDedupGo, envTriv, mapGet?]
    rw [hdeps] at hmem
    have hy : y = .str "B" := by simpa using hmem
    exact ⟨hA.symm, hy⟩
  · rw [if_neg hA] at hp
    by_cases hB : Token.str "B" = x
    · rw [if_pos hB] at hp
      cases hp
      simp [isValueProvider] at hval
    · rw [if_neg hB] at hp
      cases hp

/-- The dependency graph of `stChain` is acyclic. -/
theorem stChain_acyclic :
    ∀ t, ¬ Relation.TransGen (Dir envTriv stChain) t t := by
  intro t h
  cases h with
  | single hd =>
    obtain ⟨h1, h2⟩ := stChain_dir_char _ _ hd
    rw [h1] at h2
    exact absurd h2 (by decide)
  | tail h1 hd =>
    obtain ⟨hc, ht⟩ := stChain_dir_char _ _ hd
    subst hc
    subst ht
    cases h1 with
    | single hd2 =>
      exact absurd (stChain_dir_char _ _ hd2).1 (by decide)
    | tail _ hd2 =>
      exact absurd (stChain_dir_char _ _ hd2).2 (by decide)

/-- C5 (counterexample): in the mutually-dependent configuration `stCycle`,
`A` transitively depends on `B` but both weights are `2` (so the strict
inequality fails); and after the weight of `A` was cached and `A` was
re-registered as a value provider, `calculateWeight('A')` still returns the
stale `2`, not `0`. -/
theorem weight_monotonicity_cex :
    Relation.TransGen (Dir envTriv stCycle) (.str "A") (.str "B") ∧
    (calculateWeight envTriv stCycle (.str "A")).1 = 2 ∧
    (calculateWeight envTriv stCycle (.str "B")).1 = 2 ∧
    calculateWeight envTriv stCycle (.str "A") = (2, stCycleW) ∧
    mapGet? stStale.providers (.str "A") =
      some (.valueP (.str "A") (.numV 42)) ∧
    isValueProvider (.valueP (.str "A") (.numV 42)) = true ∧
    (calculateWeight envTriv stStale (.str "A")).1 = 2 := by
  refine ⟨?_, ?_, ?_, ?_, by decide, by decide, by decide⟩
  · refine Relation.TransGen.single (dir_intro (p :=
      .classP (.str "A") 0 (some [.str "B"]) none none)
      (by decide) (by decide) ?_)
    simp [providerWeightDeps, flattenDeps, flattenDepsGo, groupOfTok,
      getClassDependencies, gcdLoop, jsDedup, jsDedupGo, envTriv, mapGet?]
  · simp [calculateWeight, calculateWeightRecursive, weightDepsMax, stCycle,
      register, emptyState, getProviderKey, isClassProvider, isValueProvider,
      isFactoryProvider, provOnDestroy, mapGet?, mapSet, providerWeightDeps,
      flattenDeps, flattenDepsGo, groupOfTok, getClassDependencies, gcdLoop,
      jsDedup, jsDedupGo, envTriv]
  · simp [calculateWeight, calculateWeightRecursive, weightDepsMax, stCycle,
      register, emptyState, getProviderKey, isClassProvider, isValueProvider,
      isFactoryProvider, provOnDestroy, mapGet?, mapSet, providerWeightDeps,
      flattenDeps, flattenDepsGo, groupOfTok, getClassDependencies, gcdLoop,
      jsDedup, jsDedupGo, envTriv]
  · simp [calculateWeight, calculateWeightRecursive, weightDepsMax, stCycle,
      stCycleW, register, emptyState, getProviderKey, isClassProvider,
      isValueProvider, isFactoryProvider, provOnDestroy, mapGet?, mapSet,
      providerWeightDeps, flattenDeps, flattenDepsGo, groupOfTok,
      getClassDependencies, gcdLoop, jsDedup, jsDedupGo, envTriv]

theorem weight_monotonicity_amended_witness :
    (calculateWeight envTriv stChain (.str "B")).1 <
      (calculateWeight envTriv stChain (.str "A")).1 ∧
    (0 : Int) ≤ ((calculateWeight envTriv stChain (.str "A")).1 : Int) ∧
    (calculateWeight envTriv stChainV (.str "V")).1 = 0 :=
  ⟨(weight_monotonicity_amended envTriv stChain).1 (.str "A") (.str "B")
      stChain_acyclic
      (Relation.TransGen.single (dir_intro (p :=
          .classP (.str "A") 0 (some [.str "B"]) none none)
        (by decide) (by decide)
        (by simp [providerWeightDeps, flattenDeps, flattenDepsGo, groupOfTok,
          getClassDependencies, gcdLoop, jsDedup, jsDedupGo, envTriv,
          mapGet?])))
      (by decide) (by decide),
    (weight_monotonicity_amended envTriv stChain).2.1 (.str "A"),
    (weight_monotonicity_amended envTriv stChainV).2.2 (.str "V")
      (.valueP (.str "V") (.numV 5)) (by decide) (by decide) (by decide)⟩

/-! ## Destroy (C8, C9) -/

theorem instDestroyEvents_token (env : Env) (v : JSValue) (t : Token) :
    ∀ e ∈ instDestroyEvents env v t, e.token = t := by
  intro e he
  unfold instDestroyEvents at he
  split at he
  · split at he
    · simp only [List.mem_cons, List.mem_singleton, List.not_mem_nil,
        or_false] at he
      rcases he with rfl | rfl <;> rfl
    · simp only [List.mem_singleton] at he
      subst he; rfl
  · cases he

theorem perTokenDestroy_token (env : Env) (st : State) (t : Token) :
    ∀ e ∈ perTokenDestroy env st t, e.token = t := by
  intro e he
  unfold perTokenDestroy at he
  split at he
  · cases he
  · split at he
    · cases he
    · split at he
      · split at he
        · simp only [List.mem_cons, List.mem_singleton, List.not_mem_nil,
            or_false] at he
          rcases he with rfl | rfl <;> rfl
        · rcases List.mem_cons.mp he with rfl | he
          · rfl
          · exact instDestroyEvents_token env _ t e he
      · exact instDestroyEvents_token env _ t e he

theorem destroyLoop_append (env : Env) (st : State) :
    ∀ l1 l2 : List Token, destroyLoop env st (l1 ++ l2) =
      destroyLoop env st l1 ++ destroyLoop env st l2 := by
  intro l1 l2
  induction l1 with
  | nil => simp [destroyLoop]
  | cons x xs ih => simp [destroyLoop, ih]

theorem mem_destroyLoop (env : Env) (st : State) :
    ∀ (l : List Token) (e : Ev), e ∈ destroyLoop env st l →
      ∃ x ∈ l, e ∈ perTokenDestroy env st x := by
  intro l
  induction l with
  | nil => intro e h; cases h
  | cons x xs ih =>
    intro e h
    rcases List.mem_append.mp h with h | h
    · exact ⟨x, List.mem_cons_self _ _, h⟩
    · obtain ⟨y, hy, he⟩ := ih e h
      exact ⟨y, List.mem_cons_of_mem _ hy, he⟩

theorem destroyLoop_token (env : Env) (st : State) {l : List Token} {e : Ev}
    (h : e ∈ destroyLoop env st l) : e.token ∈ l := by
  obtain ⟨x, hx, he⟩ := mem_destroyLoop env st l e h
  exact (perTokenDestroy_token env st x e he) ▸ hx

/-- Every event of a destroy trace lies in the block of its own token (the
block is determined by the state, not by the position in the list). -/
theorem mem_destroyLoop_self_block (env : Env) (st : State)
    {l : List Token} {e : Ev} (h : e ∈ destroyLoop env st l) :
    e ∈ perTokenDestroy env st e.token := by
  obtain ⟨x, _, he⟩ := mem_destroyLoop env st l e h
  exact (perTokenDestroy_token env st x e he) ▸ he

theorem perTok_mem_destroyLoop (env : Env) (st : State) :
    ∀ (l : List Token) (x : Token), x ∈ l →
      ∀ e ∈ perTokenDestroy env st x, e ∈ destroyLoop env st l := by
  intro l
  induction l with
  | nil => intro x hx; cases hx
  | cons y ys ih =>
    intro x hx e he
    rcases List.mem_cons.mp hx with rfl | hx
    · exact List.mem_append_left _ he
    · exact List.mem_append_right _ (ih x hx e he)

theorem exists_split_first {α : Type} [DecidableEq α] {a : α} :
    ∀ {l : List α}, a ∈ l → ∃ u w, l = u ++ a :: w ∧ a ∉ u := by
  intro l
  induction l with
  | nil => intro h; cases h
  | cons x xs ih =>
    intro h
    by_cases hx : x = a
    · subst hx
      exact ⟨[], xs, rfl, by simp⟩
    · have hh : a ∈ xs := by
        rcases List.mem_cons.mp h with h | h
        · exact absurd h.symm hx
        · exact h
      obtain ⟨u, w, heq, hnu⟩ := ih hh
      refine ⟨x :: u, w, by simp [heq], ?_⟩
      intro hm
      rcases List.mem_cons.mp hm with hm | hm
      · exact hx hm.symm
      · exact hnu hm

theorem perTokenDestroy_shape_of_instHook (env : Env) (st : State)
    (t : Token) (pb : Bool)
    (hpb : mapGet? st.providerMetadata t = some pb)
    (hmem : Ev.instHook t ∈ perTokenDestroy env st t) :
    ∃ rest, perTokenDestroy env st t = .provHook t :: rest ∧
      Ev.instHook t ∈ rest := by
  rcases hv : mapGet? st.instances t with _ | v
  · simp only [perTokenDestroy, hv] at hmem
    cases hmem
  · by_cases hf : v.isFalsy = true
    · simp only [perTokenDestroy, hv, hf, if_true] at hmem
      cases hmem
    · have hf' : v.isFalsy = false := by simpa using hf
      rcases pb with _ | _
      · refine ⟨instDestroyEvents env v t, ?_, ?_⟩
        · simp [perTokenDestroy, hv, hf', hpb]
        · simp only [perTokenDestroy, hv, hf', hpb, Bool.false_eq_true,
            if_false] at hmem
          rcases List.mem_cons.mp hmem with hc | hc
          · cases hc
          · exact hc
      · simp only [perTokenDestroy, hv, hf', hpb, if_true,
          Bool.false_eq_true, if_false] at hmem
        simp at hmem

/-- C8: `destroy()` clears all container state (providers, instances,
resolution stack, weight cache, provider metadata); instances are torn down
in reverse insertion order (for tokens `a` inserted before `b`, the trace
splits into a part free of `a`-events followed by a part free of
`b`-events); a registered provider-level `onDestroy` runs strictly before
the instance's own `onDestroy`; and an instance whose hooks do not throw is
torn down regardless of errors thrown by other instances' teardown. -/
theorem destroy_contract (env : Env) (st : State) (trace : List Ev)
    (st2 : State) (h : destroy env st = (trace, st2)) :
    (st2.providers = [] ∧ st2.instances = [] ∧ st2.resolutionStack = [] ∧
      st2.weightCache = [] ∧ st2.providerMetadata = []) ∧
    (∀ a b l1 l2 l3,
      st.instances.map Prod.fst = l1 ++ a :: (l2 ++ b :: l3) →
      a ≠ b → a ∉ l3 → b ∉ l1 → b ∉ l2 →
      ∃ T1 T2, trace = T1 ++ T2 ∧ (∀ e ∈ T1, e.token ≠ a) ∧
        (∀ e ∈ T2, e.token ≠ b)) ∧
    (∀ t pb, mapGet? st.providerMetadata t = some pb →
      Ev.instHook t ∈ trace →
      ∃ l r, trace = l ++ Ev.provHook t :: r ∧ Ev.instHook t ∈ r) ∧
    (∀ t v, mapGet? st.instances t = some v → v.isFalsy = false →
      hasOnDestroyV env v = true →
      mapGet? st.providerMetadata t ≠ some true →
      Ev.instHook t ∈ trace) := by
  unfold destroy at h
  obtain ⟨h1, h2⟩ := Prod.mk.injEq .. ▸ h
  have htrace : trace =
      destroyLoop env st (st.instances.map Prod.fst).reverse := h1.symm
  have hst2 : st2 = clearAll st := h2.symm
  refine ⟨by simp [hst2, clearAll], ?_, ?_, ?_⟩
  · intro a b l1 l2 l3 hkeys hab hal3 hbl1 hbl2
    have hrev : (st.instances.map Prod.fst).reverse =
        (l3.reverse ++ [b]) ++ (l2.reverse ++ a :: l1.reverse) := by
      rw [hkeys]
      simp
    refine ⟨destroyLoop env st (l3.reverse ++ [b]),
      destroyLoop env st (l2.reverse ++ a :: l1.reverse), ?_, ?_, ?_⟩
    · rw [htrace, hrev, destroyLoop_append]
    · intro e he heq
      have := destroyLoop_token env st he
      rw [heq] at this
      rcases List.mem_append.mp this with hm | hm
      · exact hal3 (List.mem_reverse.mp hm)
      · exact hab (by simpa using hm)
    · intro e he heq
      have := destroyLoop_token env st he
      rw [heq] at this
      rcases List.mem_append.mp this with hm | hm
      · exact hbl2 (List.mem_reverse.mp hm)
      · rcases List.mem_cons.mp hm with hm | hm
        · exact hab hm.symm
        · exact hbl1 (List.mem_reverse.mp hm)
  · intro t pb hpb hmem
    rw [htrace] at hmem
    have ht : t ∈ (st.instances.map Prod.fst).reverse := by
      have := destroyLoop_token env st hmem
      simpa using this
    have hblk : Ev.instHook t ∈ perTokenDestroy env st t := by
      have := mem_destroyLoop_self_block env st hmem
      simpa using this
    obtain ⟨rest, hshape, hrest⟩ :=
      perTokenDestroy_shape_of_instHook env st t pb hpb hblk
    obtain ⟨u, w, hsplit, -⟩ := exists_split_first ht
    refine ⟨destroyLoop env st u, rest ++ destroyLoop env st w, ?_,
      List.mem_append_left _ hrest⟩
    rw [htrace, hsplit]
    rw [show u ++ t :: w = u ++ ([t] ++ w) by simp]
    rw [destroyLoop_append, destroyLoop_append]
    simp [destroyLoop, hshape]
  · intro t v hv hf hod hpbne
    have ht : t ∈ (st.instances.map Prod.fst).reverse :=
      List.mem_reverse.mpr (mapGet?_some_mem_keys hv)
    have hblk : Ev.instHook t ∈ perTokenDestroy env st t := by
      rcases hm : mapGet? st.providerMetadata t with _ | pb
      · simp only [perTokenDestroy, hv, hf, Bool.false_eq_true, if_false, hm,
          instDestroyEvents, hod, if_true]
        split <;> simp
      · rcases pb with _ | _
        · simp only [perTokenDestroy, hv, hf, Bool.false_eq_true, if_false,
            hm, instDestroyEvents, hod, if_true]
          split <;> simp
        · exact absurd hm hpbne
    rw [htrace]
    exact perTok_mem_destroyLoop env st _ t ht _ hblk

theorem destroy_contract_witness :
    (destroy envDes stDes).2.instances = [] ∧
    Ev.instHook (.str "B") ∈ (destroy envDes stDes).1 :=
  ⟨(destroy_contract envDes stDes _ _ Prod.mk.eta.symm).1.2.1,
    (destroy_contract envDes stDes _ _ Prod.mk.eta.symm).2.2.2 (.str "B")
      (.obj 1 1) (by decide) (by decide) (by decide) (by decide)⟩

/-- C9: a cache entry whose value is falsy is skipped entirely by the
destroy loop — no provider-level and no instance-level hook event carries
its token, even when a provider-level hook is registered for it — yet the
final `clear()` still removes it (the instance cache ends empty). -/
theorem destroy_skips_falsy (env : Env) (st : State) (trace : List Ev)
    (st2 : State) (tok : Token) (v : JSValue)
    (h : destroy env st = (trace, st2))
    (hv : mapGet? st.instances tok = some v) (hf : v.isFalsy = true) :
    (∀ e ∈ trace, e.token ≠ tok) ∧ st2.instances = [] := by
  unfold destroy at h
  obtain ⟨h1, h2⟩ := Prod.mk.injEq .. ▸ h
  constructor
  · intro e he heq
    have hblk : e ∈ perTokenDestroy env st e.token :=
      mem_destroyLoop_self_block env st (h1 ▸ he)
    rw [heq] at hblk
    simp [perTokenDestroy, hv, hf] at hblk
  · rw [← h2]
    rfl

theorem destroy_skips_falsy_witness :
    Ev.provHook (.str "Z") ∉ (destroy envDes stDes).1 ∧
    Ev.instHook (.str "Z") ∉ (destroy envDes stDes).1 ∧
    (destroy envDes stDes).2.instances = [] :=
  ⟨fun hmem => (destroy_skips_falsy envDes stDes _ _ (.str "Z") (.numV 0)
      Prod.mk.eta.symm (by decide) (by decide)).1 _ hmem rfl,
    fun hmem => (destroy_skips_falsy envDes stDes _ _ (.str "Z") (.numV 0)
      Prod.mk.eta.symm (by decide) (by decide)).1 _ hmem rfl,
    (destroy_skips_falsy envDes stDes _ _ (.str "Z") (.numV 0)
      Prod.mk.eta.symm (by decide) (by decide)).2⟩

end IocDI
